import Mathlib

/-!
# activity-box: the event digest pipeline of `src/index.js`

A shallow embedding of the script that turns a page of public GitHub events into
the text published to a gist, followed by the properties proved about it.

Conventions of the embedding.

* A JavaScript string is the list of its UTF-16 code units, so `length` and
  `slice` count code units exactly as the script does.
* A JavaScript value is a JSON value (what the events API delivers) extended with
  `undefined` and `NaN`, which property reads and arithmetic can produce.
  Numbers are integers. On safe integers (magnitude at most 2^53 - 1) double
  arithmetic is exact and numbers print as their decimal digits, and the model
  computes both; a sum with an operand or a result outside that range, and the
  printing of a number outside it, are left to the runtime (`Builtins`), so
  nothing is asserted there. Fractional and infinite numbers are outside of the
  model.
* A computation that can throw returns `Except JSError`; the only exception the
  script can raise on JSON input is a `TypeError`.
* Library functions whose code is not part of the repository are parameters:
  the built-ins `toUpperCase`, `Date.parse`, string-to-number conversion and
  the arithmetic and printing of large numbers are the fields of `Builtins`, the constant `MAX_LENGTH` imported from `gist-box`
  is an integer argument, and the clock reading `Date.now()` is the argument
  `now` (one reading for the whole run).
-/

namespace ActivityBox

/-! ## Strings -/

/-- A JavaScript string: the sequence of its UTF-16 code units. -/
abbrev JSString := List Nat

/-- UTF-16 code units of one Unicode scalar value (a surrogate pair above the
basic plane). -/
def utf16Units (c : Char) : List Nat :=
  if c.toNat < 0x10000 then [c.toNat]
  else [0xD800 + (c.toNat - 0x10000) / 0x400, 0xDC00 + (c.toNat - 0x10000) % 0x400]

/-- The JavaScript string written as a literal in the source. -/
def js (s : String) : JSString := s.toList.flatMap utf16Units

/-- Clamping of a relative index as done by `String.prototype.slice` and
`Array.prototype.slice`: a negative index counts from the end. -/
def relIndex (len : Nat) (i : Int) : Nat :=
  if i < 0 then ((len : Int) + i).toNat else min i.toNat len

/-- The call `xs.slice(start, stop)`, on a string or on an array. -/
def slice {α : Type} (xs : List α) (start stop : Int) : List α :=
  let k := relIndex xs.length start
  let final := relIndex xs.length stop
  (xs.drop k).take (final - k)

/-- The call `xs.slice(start)`: everything from the clamped index onwards. -/
def sliceFrom {α : Type} (xs : List α) (start : Int) : List α :=
  xs.drop (relIndex xs.length start)

/-- Decimal digits of `n`, most significant first, as code units; `fuel` bounds
the number of digits. -/
def digitUnits : Nat → Nat → List Nat → List Nat
  | 0, _, acc => acc
  | fuel + 1, n, acc =>
    if n < 10 then (48 + n) :: acc
    else digitUnits fuel (n / 10) ((48 + n % 10) :: acc)

/-- Number-to-string conversion of a non-negative integer. -/
def natToJSString (n : Nat) : JSString := digitUnits (n + 1) n []

/-- The decimal digits of an integer, with a minus sign when it is negative. -/
def intToJSString (n : Int) : JSString :=
  if n < 0 then 45 :: natToJSString n.natAbs else natToJSString n.natAbs

/-- Whether an integer is a safe integer: its magnitude is at most
`2^53 - 1 = 9007199254740991` (`Number.MAX_SAFE_INTEGER`). Safe integers are
doubles, a sum of safe integers that is safe is
computed exactly, and a safe integer prints as its decimal digits. -/
def isSafeInteger (n : Int) : Bool := decide (n.natAbs ≤ 9007199254740991)

/-! ## Values -/

/-- The exceptions the script can raise on JSON input. -/
inductive JSError where
  | typeError
  deriving DecidableEq, Repr

/-- JavaScript values reachable from JSON data. -/
inductive JSVal where
  | undefined
  | null
  | bool (b : Bool)
  | num (n : Int)
  | nan
  | str (s : JSString)
  | arr (items : List JSVal)
  | obj (fields : List (JSString × JSVal))

/-- Built-in functions of the JavaScript runtime that the script calls and whose
code is not in the repository. `none` stands for `NaN`. -/
structure Builtins where
  /-- The method `String.prototype.toUpperCase`. -/
  toUpperCase : JSString → JSString
  /-- The function `Date.parse` applied to a string. -/
  dateParse : JSString → Option Int
  /-- The conversion of a string to a number. -/
  stringToNumber : JSString → Option Int
  /-- The sum of two numbers as doubles, asked for only when an operand or the
  exact sum is not a safe integer (where rounding can occur). Numbers are
  integer-valued here, so a sum that overflows to an infinity is not
  represented. -/
  addDoubles : Int → Int → Option Int
  /-- Number-to-string conversion, asked for only on numbers that are not safe
  integers (the runtime prints the shortest digits that identify the double, in
  exponent notation from 1e21). -/
  numberToString : Int → JSString

/-- Number-to-string conversion of an integer-valued number: the decimal digits
of a safe integer, the answer of the runtime otherwise. -/
def numberToJSString (B : Builtins) (n : Int) : JSString :=
  if isSafeInteger n then intToJSString n else B.numberToString n

/-- Own data property of an object given as its list of fields. -/
def lookupField (key : JSString) : List (JSString × JSVal) → Option JSVal
  | [] => none
  | (k, v) :: rest => if k = key then some v else lookupField key rest

/-- Property read `v.key` for the property names the script uses (`type`,
`created_at`, `payload`, `size`, `repo`, `name`, `issue`, `number`, `ref_type`,
`ref`, `action`, `pull_request`, `merged`): it throws on `undefined` and `null`,
reads the own field of an object, and is `undefined` on every other value, whose
prototypes define none of these names. -/
def JSVal.get (v : JSVal) (key : JSString) : Except JSError JSVal :=
  match v with
  | .undefined => .error .typeError
  | .null => .error .typeError
  | .obj fields => .ok ((lookupField key fields).getD .undefined)
  | _ => .ok .undefined

/-- One element of an array being joined, given its string conversion:
`undefined` and `null` print as the empty string. -/
def elementString (x : JSVal) (converted : Except JSError JSString) :
    Except JSError JSString :=
  match x with
  | .undefined => .ok []
  | .null => .ok []
  | _ => converted

mutual
/-- The abstract operation ToString. An array is joined with commas; an object
prints as `[object Object]` unless an own field shadows `toString`, in which
case no callable conversion method is left and a TypeError is thrown. -/
def JSVal.toJSString (B : Builtins) : JSVal → Except JSError JSString
  | .undefined => .ok (js "undefined")
  | .null => .ok (js "null")
  | .bool b => .ok (if b then js "true" else js "false")
  | .num n => .ok (numberToJSString B n)
  | .nan => .ok (js "NaN")
  | .str s => .ok s
  | .arr items => joinComma B items
  | .obj fields =>
    match lookupField (js "toString") fields with
    | some _ => .error .typeError
    | none => .ok (js "[object Object]")
/-- The call `Array.prototype.join` with the default separator. -/
def joinComma (B : Builtins) : List JSVal → Except JSError JSString
  | [] => .ok []
  | [x] => elementString x (JSVal.toJSString B x)
  | x :: y :: rest =>
    match elementString x (JSVal.toJSString B x) with
    | .error e => .error e
    | .ok a =>
      match joinComma B (y :: rest) with
      | .error e => .error e
      | .ok b => .ok (a ++ js "," ++ b)
end

/-- Equality of results is decidable. -/
instance instDecidableEqExcept {ε α : Type} [DecidableEq ε] [DecidableEq α] :
    DecidableEq (Except ε α)
  | .ok a, .ok b =>
    if h : a = b then isTrue (by rw [h]) else isFalse (fun h2 => h (Except.ok.inj h2))
  | .error a, .error b =>
    if h : a = b then isTrue (by rw [h]) else isFalse (fun h2 => h (Except.error.inj h2))
  | .ok _, .error _ => isFalse (fun h => Except.noConfusion h)
  | .error _, .ok _ => isFalse (fun h => Except.noConfusion h)

/-- The abstract operation ToPrimitive: arrays and objects convert to their
string, every other value is already primitive. -/
def toPrimitive (B : Builtins) (v : JSVal) : Except JSError JSVal :=
  match v with
  | .arr items => ((JSVal.arr items).toJSString B).map JSVal.str
  | .obj fields => ((JSVal.obj fields).toJSString B).map JSVal.str
  | p => .ok p

/-- The abstract operation ToNumber on a primitive value; `none` is `NaN`. -/
def toNumber (B : Builtins) (p : JSVal) : Option Int :=
  match p with
  | .undefined => none
  | .null => some 0
  | .bool b => some (if b then 1 else 0)
  | .num n => some n
  | .nan => none
  | .str s => B.stringToNumber s
  | _ => none

/-- The abstract operation ToBoolean. -/
def toBoolean (v : JSVal) : Bool :=
  match v with
  | .undefined => false
  | .null => false
  | .bool b => b
  | .num n => n != 0
  | .nan => false
  | .str s => !s.isEmpty
  | _ => true

/-- Addition of two numbers: `NaN` as soon as one of them is `NaN`, the exact
sum when both operands and the sum are safe integers, and the answer of the
runtime otherwise. -/
def addNumbers (B : Builtins) : Option Int → Option Int → JSVal
  | some m, some n =>
    if isSafeInteger m && isSafeInteger n && isSafeInteger (m + n) then .num (m + n)
    else
      match B.addDoubles m n with
      | some r => .num r
      | none => .nan
  | _, _ => .nan

/-- The operator `a + b`: string concatenation as soon as one primitive operand
is a string, numeric addition otherwise. -/
def add (B : Builtins) (a b : JSVal) : Except JSError JSVal := do
  let pa ← toPrimitive B a
  let pb ← toPrimitive B b
  match pa, pb with
  | .str s, _ => do
    let t ← pb.toJSString B
    pure (.str (s ++ t))
  | _, .str t => do
    let s ← pa.toJSString B
    pure (.str (s ++ t))
  | _, _ => pure (addNumbers B (toNumber B pa) (toNumber B pb))

/-- The comparison `a > k` against a numeric literal `k`: false when `a`
converts to `NaN`. -/
def gtNumber (B : Builtins) (a : JSVal) (k : Int) : Except JSError Bool := do
  let pa ← toPrimitive B a
  match toNumber B pa with
  | some n => pure (decide (k < n))
  | none => pure false

/-- The comparison `v === s` against a string literal. -/
def strictEqString (v : JSVal) (s : JSString) : Bool :=
  match v with
  | .str t => decide (t = s)
  | _ => false

/-- The comparison `v == s` against a string literal. -/
def looseEqString (B : Builtins) (v : JSVal) (s : JSString) : Except JSError Bool :=
  match v with
  | .undefined => .ok false
  | .null => .ok false
  | .bool b => .ok (decide (B.stringToNumber s = some (if b then 1 else 0)))
  | .num n => .ok (decide (B.stringToNumber s = some n))
  | .nan => .ok false
  | .str t => .ok (decide (t = s))
  | .arr items => ((JSVal.arr items).toJSString B).map (fun t => decide (t = s))
  | .obj fields => ((JSVal.obj fields).toJSString B).map (fun t => decide (t = s))

/-- The range of time values a Date can hold, in milliseconds. -/
def maxTimeValue : Int := 8640000000000000

/-- The expression `new Date(v).getTime()`: a string is parsed, any other
primitive is converted to a number and clipped; `none` is `NaN`. -/
def dateGetTime (B : Builtins) (v : JSVal) : Except JSError (Option Int) := do
  let p ← toPrimitive B v
  match p with
  | .str s => pure (B.dateParse s)
  | _ =>
    match toNumber B p with
    | some t => pure (if t.natAbs ≤ maxTimeValue.toNat then some t else none)
    | none => pure none

/-! ## Array methods with a throwing callback -/

/-- The call `xs.filter(f)`. -/
def arrayFilter {α : Type} (f : α → Except JSError Bool) : List α → Except JSError (List α)
  | [] => .ok []
  | x :: xs =>
    match f x with
    | .error e => .error e
    | .ok b =>
      match arrayFilter f xs with
      | .error e => .error e
      | .ok rest => .ok (if b then x :: rest else rest)

/-- The call `xs.map(f)`. -/
def arrayMap {α β : Type} (f : α → Except JSError β) : List α → Except JSError (List β)
  | [] => .ok []
  | x :: xs =>
    match f x with
    | .error e => .error e
    | .ok y =>
      match arrayMap f xs with
      | .error e => .error e
      | .ok rest => .ok (y :: rest)

/-- The call `xs.reduce(f, init)`. -/
def arrayReduce {α β : Type} (f : β → α → Except JSError β) : β → List α → Except JSError β
  | acc, [] => .ok acc
  | acc, x :: xs =>
    match f acc x with
    | .error e => .error e
    | .ok acc2 => arrayReduce f acc2 xs

/-- The call `xs.join(sep)` on an array of strings. -/
def arrayJoin (sep : JSString) : List JSString → JSString
  | [] => []
  | [x] => x
  | x :: y :: rest => x ++ sep ++ arrayJoin sep (y :: rest)

/-! ## The script -/

/-- The constant `MAX_LINES`. -/
def MAX_LINES : Int := 20

/-- The function `capitalize`: `str.slice(0, 1).toUpperCase() + str.slice(1)`.
On a value that is not a string one of the two method calls is not a function
(or the receiver is `undefined` or `null`) and a TypeError is thrown. -/
def capitalize (B : Builtins) (str : JSVal) : Except JSError JSString :=
  match str with
  | .str s => .ok (B.toUpperCase (slice s 0 1) ++ sliceFrom s 1)
  | _ => .error .typeError

/-- The function `truncate`:
`str.length <= MAX_LENGTH ? str : str.slice(0, MAX_LENGTH - 3) + '...'`. -/
def truncate (MAX_LENGTH : Int) (str : JSString) : JSString :=
  if (str.length : Int) ≤ MAX_LENGTH then str
  else slice str 0 (MAX_LENGTH - 3) ++ js "..."

/-- The serializer of `WatchEvent`. -/
def serializers.WatchEvent (B : Builtins) (item : JSVal) : Except JSError JSString := do
  let name ← (← (← item.get (js "repo")).get (js "name")).toJSString B
  pure (js "🌟 Starred repo: " ++ name)

/-- The serializer of `IssueCommentEvent`. -/
def serializers.IssueCommentEvent (B : Builtins) (item : JSVal) : Except JSError JSString := do
  let number ← (← (← (← item.get (js "payload")).get (js "issue")).get (js "number")).toJSString B
  let name ← (← (← item.get (js "repo")).get (js "name")).toJSString B
  pure (js "🗣 Commented on #" ++ number ++ js " in " ++ name)

/-- The serializer of `CreateEvent`; it tests `item.ref_type`. -/
def serializers.CreateEvent (B : Builtins) (item : JSVal) : Except JSError JSString := do
  if ← looseEqString B (← item.get (js "ref_type")) (js "repository") then
    let name ← (← (← item.get (js "repo")).get (js "name")).toJSString B
    pure (js "🆕 Created new repo: " ++ name)
  else
    let ref ← (← (← item.get (js "payload")).get (js "ref")).toJSString B
    let name ← (← (← item.get (js "repo")).get (js "name")).toJSString B
    pure (js "⑂ Created branch " ++ ref ++ js " in repo: " ++ name)

/-- The serializer of `ForkEvent`. -/
def serializers.ForkEvent (B : Builtins) (item : JSVal) : Except JSError JSString := do
  let name ← (← (← item.get (js "repo")).get (js "name")).toJSString B
  pure (js "ᛘ Forked repo: " ++ name)

/-- The serializer of `IssuesEvent`. -/
def serializers.IssuesEvent (B : Builtins) (item : JSVal) : Except JSError JSString := do
  let action ← capitalize B (← (← item.get (js "payload")).get (js "action"))
  let number ← (← (← (← item.get (js "payload")).get (js "issue")).get (js "number")).toJSString B
  let name ← (← (← item.get (js "repo")).get (js "name")).toJSString B
  pure (js "❗️ " ++ action ++ js " issue #" ++ number ++ js " in " ++ name)

/-- The serializer of `PullRequestEvent`. -/
def serializers.PullRequestEvent (B : Builtins) (item : JSVal) : Except JSError JSString := do
  let emoji :=
    if strictEqString (← (← item.get (js "payload")).get (js "action")) (js "opened")
    then js "🆒" else js "❌"
  let line ←
    if toBoolean (← (← (← item.get (js "payload")).get (js "pull_request")).get (js "merged"))
    then pure (js "🎉 Merged")
    else do
      let action ← capitalize B (← (← item.get (js "payload")).get (js "action"))
      pure (emoji ++ js " " ++ action)
  let number ←
    (← (← (← item.get (js "payload")).get (js "pull_request")).get (js "number")).toJSString B
  let name ← (← (← item.get (js "repo")).get (js "name")).toJSString B
  pure (line ++ js " PR #" ++ number ++ js " in " ++ name)

/-- The object `serializers`: its own keys with their functions. -/
def serializers (B : Builtins) : List (JSString × (JSVal → Except JSError JSString)) :=
  [ (js "WatchEvent", serializers.WatchEvent B),
    (js "IssueCommentEvent", serializers.IssueCommentEvent B),
    (js "CreateEvent", serializers.CreateEvent B),
    (js "ForkEvent", serializers.ForkEvent B),
    (js "IssuesEvent", serializers.IssuesEvent B),
    (js "PullRequestEvent", serializers.PullRequestEvent B) ]

/-- The method lookup `serializers[key]`. -/
def serializerOf (B : Builtins) (key : JSString) :
    Option (JSVal → Except JSError JSString) :=
  ((serializers B).find? (fun entry => decide (entry.1 = key))).map Prod.snd

/-- The filter callback `event => serializers.hasOwnProperty(event.type)`: the
argument is converted to a property key, that is, to a string. -/
def hasSerializer (B : Builtins) (event : JSVal) : Except JSError Bool := do
  let key ← (← event.get (js "type")).toJSString B
  pure (serializerOf B key).isSome

/-- The map callback `item => serializers[item.type](item)`; calling a missing
entry throws. -/
def serialize (B : Builtins) (item : JSVal) : Except JSError JSString := do
  let key ← (← item.get (js "type")).toJSString B
  match serializerOf B key with
  | some f => f item
  | none => .error .typeError

/-- The width of the commit window: `7 * 24 * 60 * 60 * 1000` milliseconds. -/
def weekMs : Int := 7 * 24 * 60 * 60 * 1000

/-- The first filter callback of `commits`:
`Date.now() - eventDate.getTime() < 7 * 24 * 60 * 60 * 1000`, false on `NaN`. -/
def isRecent (B : Builtins) (now : Int) (event : JSVal) : Except JSError Bool := do
  let eventDate ← dateGetTime B (← event.get (js "created_at"))
  match eventDate with
  | some t => pure (decide (now - t < weekMs))
  | none => pure false

/-- The second filter callback of `commits`: `event.type === 'PushEvent'`. -/
def isPush (event : JSVal) : Except JSError Bool := do
  pure (strictEqString (← event.get (js "type")) (js "PushEvent"))

/-- The array `commits`: events younger than a week, then push events only. -/
def commits (B : Builtins) (now : Int) (events : List JSVal) :
    Except JSError (List JSVal) := do
  let recent ← arrayFilter (isRecent B now) events
  arrayFilter isPush recent

/-- The reducer `commitCounter`: `total + commit.payload.size`. -/
def commitCounter (B : Builtins) (total commit : JSVal) : Except JSError JSVal := do
  add B total (← (← commit.get (js "payload")).get (js "size"))

/-- The value `commitNum`: `commits.reduce(commitCounter, 0)`. -/
def commitNum (B : Builtins) (now : Int) (events : List JSVal) : Except JSError JSVal := do
  arrayReduce (commitCounter B) (.num 0) (← commits B now events)

/-- The line chosen from `commitNum` by the two comparisons `> 0` and `> 1`. -/
def commitLine (B : Builtins) (num : JSVal) : Except JSError JSString := do
  if ← gtNumber B num 0 then
    if ← gtNumber B num 1 then
      pure (js "💻 Pushed " ++ (← num.toJSString B) ++ js " commits in the last week")
    else
      pure (js "💻 Pushed " ++ (← num.toJSString B) ++ js " commit in the last week")
  else
    pure (js "💻 No commits in the last week")

/-- The variable `commitContent` after the conditional assignment. -/
def commitContent (B : Builtins) (now : Int) (events : List JSVal) :
    Except JSError JSString := do
  commitLine B (← commitNum B now events)

/-- The array `extraContent`: interesting events, the first `MAX_LINES - 1` of
them, serialized, truncated. -/
def extraContent (B : Builtins) (MAX_LENGTH : Int) (events : List JSVal) :
    Except JSError (List JSString) := do
  let interesting ← arrayFilter (hasSerializer B) events
  let rendered ← arrayMap (serialize B) (slice interesting 0 (MAX_LINES - 1))
  pure (rendered.map (truncate MAX_LENGTH))

/-- The array literal `[commitContent, ...extraContent]`. -/
def contentLines (B : Builtins) (MAX_LENGTH now : Int) (events : List JSVal) :
    Except JSError (List JSString) := do
  let first ← commitContent B now events
  let extra ← extraContent B MAX_LENGTH events
  pure (first :: extra)

/-- The string `content` handed to `box.update`. -/
def content (B : Builtins) (MAX_LENGTH now : Int) (events : List JSVal) :
    Except JSError JSString := do
  pure (arrayJoin (js "\n") (← contentLines B MAX_LENGTH now events))

/-! ## The run as a sequence of steps -/

/-- How a run of the callback given to `Toolkit.run` ends: through
`tools.exit.success`, through `tools.exit.failure` in the `catch` block, or with
an exception that leaves the callback (a failed `await` or a throwing
serializer outside the `try` block). -/
inductive ExitStatus where
  | success
  | failure
  | thrown
  deriving DecidableEq, Repr

/-- The answers of the two network calls of one run: the array `events.data`
returned by `listPublicEventsForUser` (`none` when that call fails) and whether
`box.update` succeeds. -/
structure Network where
  fetched : Option (List JSVal)
  publishes : Bool

/-- The control points of the callback: before the first `await`, with the
events in hand, inside the `try` block with the content built, and ended. -/
inductive Phase where
  | fetching
  | assembling (events : List JSVal)
  | publishing (content : JSString)
  | finished (status : ExitStatus)

/-- The state of a run: its control point, the remote digest held by the gist,
and the number of calls of `box.update` performed so far. -/
structure RunState where
  phase : Phase
  remote : JSString
  updates : Nat

/-- Modelled from the spec: the method `box.update` of the `gist-box` library,
whose code is not in the repository. The specification (sections 4.4 and 6)
gives it one network write that succeeds or fails atomically: on success the
content replaces the remote digest, on failure the remote digest is left as it
was. The result is the success flag and the remote digest after the call. -/
def boxUpdate (publishes : Bool) (content remote : JSString) : Bool × JSString :=
  if publishes then (true, content) else (false, remote)

/-- One step of the callback. The `await` on the events is not guarded, so a
failed fetch leaves the callback at once; so does a serializer that throws;
`box.update` is called inside `try`, followed by `tools.exit.success`, with
`tools.exit.failure` in the `catch` block. -/
def step (B : Builtins) (MAX_LENGTH now : Int) (net : Network) (s : RunState) : RunState :=
  match s.phase with
  | .fetching =>
    match net.fetched with
    | none => { s with phase := .finished .thrown }
    | some events => { s with phase := .assembling events }
  | .assembling events =>
    match content B MAX_LENGTH now events with
    | .error _ => { s with phase := .finished .thrown }
    | .ok c => { s with phase := .publishing c }
  | .publishing c =>
    match boxUpdate net.publishes c s.remote with
    | (true, written) =>
      { phase := .finished .success, remote := written, updates := s.updates + 1 }
    | (false, kept) =>
      { phase := .finished .failure, remote := kept, updates := s.updates + 1 }
  | .finished _ => s

/-- The state in which a run starts, given the remote digest of the last run. -/
def initialState (remote : JSString) : RunState :=
  { phase := .fetching, remote := remote, updates := 0 }

/-- The state after `n` steps. -/
def stateAfter (B : Builtins) (MAX_LENGTH now : Int) (net : Network) (remote : JSString) :
    Nat → RunState
  | 0 => initialState remote
  | n + 1 => step B MAX_LENGTH now net (stateAfter B MAX_LENGTH now net remote n)

/-- The state in which the run ends: three steps reach an end in every case. -/
def run (B : Builtins) (MAX_LENGTH now : Int) (net : Network) (remote : JSString) : RunState :=
  stateAfter B MAX_LENGTH now net remote 3

/-! ## Input schema and the commit window as the specification words them -/

/-- Reading a field without throwing: `undefined` when the field is absent or
the value is not an object. -/
def field (v : JSVal) (key : JSString) : JSVal :=
  match v with
  | .obj fields => (lookupField key fields).getD .undefined
  | _ => .undefined

/-- Whether a value is a string. -/
def JSVal.isStr : JSVal → Bool
  | .str _ => true
  | _ => false

/-- The envelope of an event of the events API: an object whose `type` and
`created_at` are strings. -/
def isEventObject (e : JSVal) : Bool :=
  match e with
  | .obj _ => (field e (js "type")).isStr && (field e (js "created_at")).isStr
  | _ => false

/-- The timestamp of an event in milliseconds: the time value of the date made
from `created_at`, `none` when that is `NaN` (or when making it throws). -/
def eventTime (B : Builtins) (e : JSVal) : Option Int :=
  match dateGetTime B (field e (js "created_at")) with
  | .ok t => t
  | .error _ => none

/-- The window test of the specification: `now - timestamp < 7 days`. -/
def inWindow (B : Builtins) (now : Int) (e : JSVal) : Bool :=
  match eventTime B e with
  | some t => decide (now - t < 604800000)
  | none => false

/-- The kind test of the specification: the event is a push event. -/
def isPushEvent (e : JSVal) : Bool :=
  strictEqString (field e (js "type")) (js "PushEvent")

/-- Whether the push-size field `payload.size` holds an integer. -/
def hasIntegerSize (e : JSVal) : Bool :=
  match field (field e (js "payload")) (js "size") with
  | .num _ => true
  | _ => false

/-- The push size of an event whose `payload.size` is an integer. -/
def pushSize (e : JSVal) : Int :=
  match field (field e (js "payload")) (js "size") with
  | .num n => n
  | _ => 0

/-- The sum of the magnitudes of the push sizes inside the window: when it is
at most `2^53 - 1`, every partial sum of the reducer is a safe integer. -/
def windowAbsTotal (B : Builtins) (now : Int) (events : List JSVal) : Nat :=
  ((events.filter (fun e => isPushEvent e && inWindow B now e)).map
    (fun e => (pushSize e).natAbs)).sum

/-- Whether the payload of an event is an object without a `size`. -/
def hasAbsentSize (e : JSVal) : Bool :=
  match field e (js "payload") with
  | .obj fields =>
    match field (.obj fields) (js "size") with
    | .undefined => true
    | _ => false
  | _ => false

/-- The sum of the specification: the push sizes of exactly the push events
inside the window. -/
def windowPushTotal (B : Builtins) (now : Int) (events : List JSVal) : Int :=
  ((events.filter (fun e => isPushEvent e && inWindow B now e)).map pushSize).sum

/-! ## Insertion of events of unrecognised kinds -/

/-- Whether a value is primitive (neither an array nor an object). -/
def isPrimitive : JSVal → Bool
  | .arr _ => false
  | .obj _ => false
  | _ => true

/-- Whether the reducer can read and convert `commit.payload.size` without
throwing. -/
def readsSize (B : Builtins) (c : JSVal) : Bool :=
  match c.get (js "payload") with
  | .error _ => false
  | .ok p =>
    match p.get (js "size") with
    | .error _ => false
    | .ok v => (toPrimitive B v).isOk

/-- An event of an unrecognised kind: an event object whose `type` is not a key
of `serializers` (for instance `GollumEvent`, or `PushEvent`), a push event
carrying an integer `payload.size`. -/
def unrecognized (B : Builtins) (x : JSVal) : Prop :=
  isEventObject x = true ∧ hasSerializer B x = .ok false ∧
    (isPushEvent x = true → hasIntegerSize x = true)

/-- The relation `Inserts P l l2`: the sequence `l2` is `l` with any number of
elements satisfying `P` inserted at any positions (and `l` is `l2` with them
removed). -/
inductive Inserts (P : JSVal → Prop) : List JSVal → List JSVal → Prop
  | nil : Inserts P [] []
  | keep (e : JSVal) {l l2 : List JSVal} : Inserts P l l2 → Inserts P (e :: l) (e :: l2)
  | insert (x : JSVal) {l l2 : List JSVal} : P x → Inserts P l l2 → Inserts P l (x :: l2)

/-! ## Lines of the published content -/

/-- The call `str.split('\n')`: the pieces between newline code units. -/
def splitNewline : JSString → List JSString
  | [] => [[]]
  | c :: cs =>
    if c = 10 then [] :: splitNewline cs
    else
      match splitNewline cs with
      | [] => [[c]]
      | piece :: pieces => (c :: piece) :: pieces

/-- The kind test of the specification: the kind of the event is in the
serializer registry, that is, the filter callback of `extraContent` answers
`true`. -/
def inRegistry (B : Builtins) (e : JSVal) : Bool :=
  decide (hasSerializer B e = .ok true)

/-! ## The digest as the specification words it -/

/-- The digest in the words of the specification: the commit-aggregate line,
then, for each of the first 19 events of the sequence whose kind has a
serializer (in source order), a newline followed by the truncated rendering of
the event. A step that throws makes the whole digest throw. -/
def digestSpec (B : Builtins) (MAX_LENGTH now : Int) (events : List JSVal) :
    Except JSError JSString :=
  match commitContent B now events with
  | .error e => .error e
  | .ok first =>
    match arrayFilter (hasSerializer B) events with
    | .error e => .error e
    | .ok interesting =>
      match arrayMap (fun e => (serialize B e).map (truncate MAX_LENGTH))
          (interesting.take 19) with
      | .error e => .error e
      | .ok body => .ok (first ++ (body.map (fun line => js "\n" ++ line)).flatten)

/-! ## Sample runtime and inputs used to instantiate the theorems -/

/-- Number of binary digits of a natural number; `fuel` bounds them. -/
def bitLength : Nat → Nat → Nat
  | 0, _ => 0
  | fuel + 1, n => if n = 0 then 0 else 1 + bitLength fuel (n / 2)

/-- Rounding of a natural number to the nearest number with 53 significant
binary digits, ties going to the even one: the rounding of IEEE 754 doubles
(below the overflow threshold). -/
def roundNatToDouble (a : Nat) : Nat :=
  let e := bitLength (a + 1) a - 53
  let q := a / 2 ^ e
  let r := a % 2 ^ e
  if 2 * r > 2 ^ e ∨ (2 * r = 2 ^ e ∧ q % 2 = 1) then (q + 1) * 2 ^ e else q * 2 ^ e

/-- Rounding of an integer to the nearest double, symmetric in the sign. -/
def roundToDouble (x : Int) : Int :=
  if x < 0 then -((roundNatToDouble x.natAbs : Nat) : Int)
  else ((roundNatToDouble x.natAbs : Nat) : Int)

/-- The value of a string of decimal digits, `none` on any other character. -/
def parseDigits : JSString → Nat → Option Nat
  | [], acc => some acc
  | c :: cs, acc => if 48 ≤ c ∧ c ≤ 57 then parseDigits cs (10 * acc + (c - 48)) else none

/-- A runtime for the examples: `toUpperCase` on strings of ASCII letters,
`Date.parse` on the ISO timestamps listed (milliseconds since the epoch),
string-to-number conversion on strings of decimal digits, double addition as
the exact sum rounded to the nearest double, and number printing as the decimal
digits (what engines print for the numbers used in the examples). -/
def sampleBuiltins : Builtins where
  toUpperCase := fun s => s.map (fun u => if 97 ≤ u ∧ u ≤ 122 then u - 32 else u)
  dateParse := fun s =>
    if s = js "2024-01-08T00:00:00Z" then some 1704672000000
    else if s = js "2024-01-07T12:00:00Z" then some 1704628800000
    else if s = js "2024-01-01T00:00:00.001Z" then some 1704067200001
    else if s = js "2024-01-01T00:00:00Z" then some 1704067200000
    else if s = js "2023-12-31T00:00:00Z" then some 1703980800000
    else none
  stringToNumber := fun s => (parseDigits s 0).map Int.ofNat
  addDoubles := fun m n => some (roundToDouble (m + n))
  numberToString := intToJSString

/-- The instant 2024-01-08T00:00:00Z, used as clock reading in the examples. -/
def sampleNow : Int := 1704672000000

/-- A repository-creation event as the events API delivers it: the reference
type is a field of the payload and `payload.ref` is `null`. -/
def sampleCreateRepository : JSVal :=
  .obj [ (js "type", .str (js "CreateEvent")),
         (js "created_at", .str (js "2024-01-07T12:00:00Z")),
         (js "repo", .obj [(js "name", .str (js "octo/repo"))]),
         (js "payload", .obj [ (js "ref", .null),
                               (js "ref_type", .str (js "repository")) ]) ]

/-- A pull-request event with the given action, merged flag and number. -/
def samplePullRequest (action : JSString) (merged : Bool) (number : Int) : JSVal :=
  .obj [ (js "type", .str (js "PullRequestEvent")),
         (js "created_at", .str (js "2024-01-07T12:00:00Z")),
         (js "repo", .obj [(js "name", .str (js "octo/repo"))]),
         (js "payload", .obj [ (js "action", .str action),
                               (js "pull_request",
                                 .obj [ (js "merged", .bool merged),
                                        (js "number", .num number) ]) ]) ]

/-- A push event with the given timestamp and size. -/
def samplePush (createdAt : JSString) (size : Int) : JSVal :=
  .obj [ (js "type", .str (js "PushEvent")),
         (js "created_at", .str createdAt),
         (js "repo", .obj [(js "name", .str (js "octo/repo"))]),
         (js "payload", .obj [(js "size", .num size)]) ]

/-- The example of the specification: pushes of sizes 3 and 5 inside the week
before `sampleNow` (the second one a millisecond inside) and a push of size 2
that is eight days old. -/
def sampleWeek : List JSVal :=
  [ samplePush (js "2024-01-07T12:00:00Z") 3,
    samplePush (js "2024-01-01T00:00:00.001Z") 5,
    samplePush (js "2023-12-31T00:00:00Z") 2 ]

/-- A star event on a repository with the given name. -/
def sampleWatch (name : JSString) : JSVal :=
  .obj [ (js "type", .str (js "WatchEvent")),
         (js "created_at", .str (js "2024-01-07T12:00:00Z")),
         (js "repo", .obj [(js "name", .str name)]) ]

/-- A wiki event, of a kind without serializer. -/
def sampleGollum : JSVal :=
  .obj [ (js "type", .str (js "GollumEvent")),
         (js "created_at", .str (js "2024-01-07T12:00:00Z")),
         (js "repo", .obj [(js "name", .str (js "octo/repo"))]),
         (js "payload", .obj []) ]

/-- A push event whose `payload.size` is a string. -/
def samplePushStringSize (createdAt size : JSString) : JSVal :=
  .obj [ (js "type", .str (js "PushEvent")),
         (js "created_at", .str createdAt),
         (js "repo", .obj [(js "name", .str (js "octo/repo"))]),
         (js "payload", .obj [(js "size", .str size)]) ]

/-- A push event inside the sample week whose payload has no `size`. -/
def samplePushNoSize : JSVal :=
  .obj [ (js "type", .str (js "PushEvent")),
         (js "created_at", .str (js "2024-01-07T12:00:00Z")),
         (js "repo", .obj [(js "name", .str (js "octo/repo"))]),
         (js "payload", .obj [(js "ref", .str (js "refs/heads/main"))]) ]

/-- A push event inside the sample week without payload. -/
def samplePushNoPayload : JSVal :=
  .obj [ (js "type", .str (js "PushEvent")),
         (js "created_at", .str (js "2024-01-07T12:00:00Z")),
         (js "repo", .obj [(js "name", .str (js "octo/repo"))]) ]

/-- An issue-comment event whose payload has no `issue`. -/
def sampleIssueCommentNoIssue : JSVal :=
  .obj [ (js "type", .str (js "IssueCommentEvent")),
         (js "created_at", .str (js "2024-01-07T12:00:00Z")),
         (js "repo", .obj [(js "name", .str (js "octo/repo"))]),
         (js "payload", .obj [(js "action", .str (js "created"))]) ]

end ActivityBox

/-! # Theorems -/

namespace ActivityBox

/-! ## Strings and slices -/

theorem js_dots : js "..." = [46, 46, 46] := by decide

theorem relIndex_of_nonneg (len : Nat) (i : Int) (h : 0 ≤ i) :
    relIndex len i = min i.toNat len := by
  unfold relIndex
  rw [if_neg (by omega)]

theorem slice_zero {α : Type} (xs : List α) (stop : Int) (h : 0 ≤ stop) :
    slice xs 0 stop = xs.take stop.toNat := by
  unfold slice
  simp only [relIndex_of_nonneg _ _ h, relIndex_of_nonneg _ _ (le_refl (0 : Int))]
  simp [List.take_take]

theorem sliceFrom_one {α : Type} (xs : List α) : sliceFrom xs 1 = xs.drop 1 := by
  unfold sliceFrom
  rw [relIndex_of_nonneg _ _ (by decide)]
  cases xs <;> simp

theorem truncate_of_le (W : Int) (s : JSString) (h : (s.length : Int) ≤ W) :
    truncate W s = s := by
  unfold truncate
  rw [if_pos h]

theorem truncate_of_gt (W : Int) (s : JSString) (hW : 3 ≤ W) (h : W < (s.length : Int)) :
    truncate W s = s.take (W - 3).toNat ++ js "..." := by
  unfold truncate
  rw [if_neg (by omega), slice_zero _ _ (by omega)]

theorem truncate_length_le (W : Int) (s : JSString) (hW : 3 ≤ W) :
    ((truncate W s).length : Int) ≤ W := by
  by_cases h : (s.length : Int) ≤ W
  · rw [truncate_of_le W s h]; exact h
  · rw [truncate_of_gt W s hW (by omega), js_dots]
    simp only [List.length_append, List.length_take, List.length_cons, List.length_nil]
    omega

/-- C4. For every string `s` and width `W = MAX_LENGTH` with `W ≥ 3`:
`truncate(s)` has at most `W` code units; a string of length at most `W` is
returned unchanged; a longer one becomes its first `W - 3` code units followed
by `...`, so it ends with the ellipsis and has length exactly `W`. -/
theorem truncate_spec (W : Int) (s : JSString) (hW : 3 ≤ W) :
    ((truncate W s).length : Int) ≤ W ∧
    ((s.length : Int) ≤ W → truncate W s = s) ∧
    (W < (s.length : Int) →
      truncate W s = s.take (W - 3).toNat ++ js "..." ∧
      List.IsSuffix (js "...") (truncate W s) ∧
      ((truncate W s).length : Int) = W) := by
  refine ⟨truncate_length_le W s hW, truncate_of_le W s, fun h => ?_⟩
  have e := truncate_of_gt W s hW h
  refine ⟨e, ?_, ?_⟩
  · rw [e]; exact List.suffix_append _ _
  · rw [e, js_dots]
    simp only [List.length_append, List.length_take, List.length_cons, List.length_nil]
    omega

/-- Witness of C4 at width 10: a short string is kept, and a 14-unit string is
cut to its first 7 units followed by the ellipsis. -/
theorem truncate_spec_witness :
    (3 : Int) ≤ 10 ∧
    truncate 10 (js "octo") = js "octo" ∧
    truncate 10 (js "octo/capybara") = js "octo/ca..." ∧
    ((truncate 10 (js "octo/capybara")).length : Int) = 10 :=
  ⟨by decide,
   (truncate_spec 10 (js "octo") (by decide)).2.1 (by decide),
   by decide,
   ((truncate_spec 10 (js "octo/capybara") (by decide)).2.2 (by decide)).2.2⟩

/-- C9. For every string `s`, `capitalize(s)` is the upper-cased first code unit
of `s` followed by the rest of `s` unchanged; with a runtime whose `toUpperCase`
maps `o` to `O` it maps `opened` to `Opened`, and with one that maps the empty
string to itself it maps the empty string to the empty string, without
throwing. -/
theorem capitalize_spec (B : Builtins) (s : JSString) :
    capitalize B (.str s) = .ok (B.toUpperCase (s.take 1) ++ s.drop 1) ∧
    (B.toUpperCase (js "o") = js "O" →
      capitalize B (.str (js "opened")) = .ok (js "Opened")) ∧
    (B.toUpperCase [] = [] → capitalize B (.str []) = .ok []) := by
  have main : ∀ t : JSString,
      capitalize B (.str t) = .ok (B.toUpperCase (t.take 1) ++ t.drop 1) := by
    intro t
    simp only [capitalize, slice_zero t 1 (by decide), sliceFrom_one]
    rfl
  refine ⟨main s, fun h => ?_, fun h => ?_⟩
  · rw [main]
    have e1 : (js "opened").take 1 = js "o" := by decide
    have e2 : (js "opened").drop 1 = js "pened" := by decide
    rw [e1, e2, h]
    rfl
  · rw [main]
    simp [h]

/-- Witness of C9 with the sample runtime. -/
theorem capitalize_spec_witness :
    sampleBuiltins.toUpperCase (js "o") = js "O" ∧
    sampleBuiltins.toUpperCase [] = [] ∧
    capitalize sampleBuiltins (.str (js "opened")) = .ok (js "Opened") ∧
    capitalize sampleBuiltins (.str []) = .ok [] :=
  ⟨by decide, by decide,
   (capitalize_spec sampleBuiltins []).2.1 (by decide),
   (capitalize_spec sampleBuiltins []).2.2 (by decide)⟩

/-! ## Serializers -/

theorem bind_ok {α β : Type} (a : α) (f : α → Except JSError β) :
    (Except.ok a >>= f) = f a := rfl

theorem capitalize_str (B : Builtins) (s : JSString) :
    capitalize B (.str s) = .ok (B.toUpperCase (s.take 1) ++ s.drop 1) := by
  simp only [capitalize, slice_zero s 1 (by decide), sliceFrom_one]
  rfl

/-- C7, evaluated at a repository-creation event of the API (payload reference
type `repository`, `payload.ref` null, no top-level `ref_type`): the serializer
tests `item.ref_type`, which is `undefined`, and renders the branch line
`⑂ Created branch null in repo: octo/repo` instead of
`🆕 Created new repo: octo/repo`. -/
theorem createEvent_payload_ref_type_ignored :
    (sampleCreateRepository.get (js "payload")).bind (fun p => p.get (js "ref_type"))
      = .ok (.str (js "repository")) ∧
    serializers.CreateEvent sampleBuiltins sampleCreateRepository
      = .ok (js "⑂ Created branch null in repo: octo/repo") ∧
    serializers.CreateEvent sampleBuiltins sampleCreateRepository
      ≠ .ok (js "🆕 Created new repo: octo/repo") :=
  ⟨rfl, by decide, by decide⟩

theorem numberToJSString_of_safe (B : Builtins) (n : Int) (h : isSafeInteger n = true) :
    numberToJSString B n = intToJSString n := by
  unfold numberToJSString
  rw [if_pos h]

/-- C8. For a well-formed pull-request event with number `n` (a safe integer,
printed as its decimal digits) and repository name `r`: when `merged` is true
the serializer renders `🎉 Merged PR #n in r` whatever the action is; when
`merged` is false and the action is `opened` it renders `🆒 Opened PR #n in r`
(the runtime upper-casing `o` to `O`); when `merged` is false and the action is
another string `a` it renders `❌ capitalize(a) PR #n in r`. -/
theorem pullRequest_spec (B : Builtins) (item payload pr repo action : JSVal)
    (r : JSString) (merged : Bool) (n : Int)
    (hp : item.get (js "payload") = .ok payload)
    (ha : payload.get (js "action") = .ok action)
    (hpr : payload.get (js "pull_request") = .ok pr)
    (hm : pr.get (js "merged") = .ok (.bool merged))
    (hn : pr.get (js "number") = .ok (.num n))
    (hsafe : isSafeInteger n = true)
    (hr : item.get (js "repo") = .ok repo)
    (hname : repo.get (js "name") = .ok (.str r)) :
    (merged = true →
      serializers.PullRequestEvent B item
        = .ok (js "🎉 Merged PR #" ++ intToJSString n ++ js " in " ++ r)) ∧
    (merged = false → action = .str (js "opened") → B.toUpperCase (js "o") = js "O" →
      serializers.PullRequestEvent B item
        = .ok (js "🆒 Opened PR #" ++ intToJSString n ++ js " in " ++ r)) ∧
    (merged = false → ∀ a : JSString, action = .str a → a ≠ js "opened" →
      ∃ c, capitalize B (.str a) = .ok c ∧
        serializers.PullRequestEvent B item
          = .ok (js "❌ " ++ c ++ js " PR #" ++ intToJSString n ++ js " in " ++ r)) := by
  refine ⟨fun h => ?_, fun h ha2 hu => ?_, fun h a ha2 hne => ?_⟩
  · subst h
    simp only [serializers.PullRequestEvent, hp, ha, hpr, hm, hn, hr, hname, bind_ok, toBoolean,
      JSVal.toJSString, if_true, pure, Except.pure, numberToJSString_of_safe B n hsafe]
    have e : js "🎉 Merged" ++ js " PR #" = js "🎉 Merged PR #" := by decide
    rw [e]
  · subst h; subst ha2
    have e1 : (js "opened").take 1 = js "o" := by decide
    have e2 : js "🆒" ++ js " " ++ (js "O" ++ (js "opened").drop 1) ++ js " PR #"
        = js "🆒 Opened PR #" := by decide
    have e3 : strictEqString (.str (js "opened")) (js "opened") = true := by decide
    simp only [serializers.PullRequestEvent, hp, ha, hpr, hm, hn, hr, hname, bind_ok, toBoolean,
      JSVal.toJSString, pure, Except.pure, capitalize_str, e1, e3, hu, if_true, e2,
      numberToJSString_of_safe B n hsafe]
    simp
  · subst h; subst ha2
    refine ⟨_, capitalize_str B a, ?_⟩
    have e3 : strictEqString (.str a) (js "opened") = false := by
      simp [strictEqString, hne]
    have e4 : js "❌" ++ js " " = js "❌ " := by decide
    simp only [serializers.PullRequestEvent, hp, ha, hpr, hm, hn, hr, hname, bind_ok, toBoolean,
      JSVal.toJSString, pure, Except.pure, capitalize_str, e3,
      numberToJSString_of_safe B n hsafe]
    rw [← e4]
    simp

/-- Witness of C8 with the sample runtime: a merged closed PR, an opened PR and
a closed unmerged PR, all numbered 42 in `octo/repo`. -/
theorem pullRequest_spec_witness :
    serializers.PullRequestEvent sampleBuiltins (samplePullRequest (js "closed") true 42)
      = .ok (js "🎉 Merged PR #42 in octo/repo") ∧
    serializers.PullRequestEvent sampleBuiltins (samplePullRequest (js "opened") false 42)
      = .ok (js "🆒 Opened PR #42 in octo/repo") ∧
    (∃ c, capitalize sampleBuiltins (.str (js "closed")) = .ok c ∧
      serializers.PullRequestEvent sampleBuiltins (samplePullRequest (js "closed") false 42)
        = .ok (js "❌ " ++ c ++ js " PR #" ++ intToJSString 42 ++ js " in " ++ js "octo/repo")) :=
  ⟨(pullRequest_spec sampleBuiltins (samplePullRequest (js "closed") true 42) _ _ _ _
      (js "octo/repo") true 42 rfl rfl rfl rfl rfl (by decide) rfl rfl).1 rfl,
   (pullRequest_spec sampleBuiltins (samplePullRequest (js "opened") false 42) _ _ _ _
      (js "octo/repo") false 42 rfl rfl rfl rfl rfl (by decide) rfl rfl).2.1 rfl rfl (by decide),
   (pullRequest_spec sampleBuiltins (samplePullRequest (js "closed") false 42) _ _ _ _
      (js "octo/repo") false 42 rfl rfl rfl rfl rfl (by decide) rfl rfl).2.2 rfl (js "closed") rfl
      (by decide)⟩

/-! ## Assembly of the digest -/

theorem map_ok {α β : Type} (g : α → β) (a : α) :
    (Except.ok a : Except JSError α).map g = .ok (g a) := rfl

theorem map_error {α β : Type} (g : α → β) (e : JSError) :
    (Except.error e : Except JSError α).map g = .error e := rfl

theorem arrayMap_map {α β γ : Type} (f : α → Except JSError β) (g : β → γ) (xs : List α) :
    (arrayMap f xs).map (List.map g) = arrayMap (fun x => (f x).map g) xs := by
  induction xs with
  | nil => rfl
  | cons x xs ih =>
    rw [arrayMap, arrayMap, ← ih]
    cases f x with
    | error e => rfl
    | ok y =>
      simp only [map_ok]
      cases arrayMap f xs with
      | error e => rfl
      | ok rest => rfl

theorem arrayJoin_cons (sep x : JSString) (xs : List JSString) :
    arrayJoin sep (x :: xs) = x ++ (xs.map (fun line => sep ++ line)).flatten := by
  induction xs generalizing x with
  | nil => simp [arrayJoin]
  | cons y ys ih =>
    rw [arrayJoin, ih y]
    simp [List.append_assoc]

theorem slice_max_lines {α : Type} (xs : List α) :
    slice xs 0 (MAX_LINES - 1) = xs.take 19 := by
  rw [slice_zero xs (MAX_LINES - 1) (by decide)]
  rfl

theorem extraContent_eq (B : Builtins) (W : Int) (events : List JSVal) :
    extraContent B W events =
      match arrayFilter (hasSerializer B) events with
      | .error e => .error e
      | .ok interesting =>
        arrayMap (fun e => (serialize B e).map (truncate W)) (interesting.take 19) := by
  unfold extraContent
  cases h : arrayFilter (hasSerializer B) events with
  | error e => rfl
  | ok interesting =>
    simp only [bind_ok, slice_max_lines]
    rw [← arrayMap_map]
    cases arrayMap (serialize B) (List.take 19 interesting) <;> rfl

/-- C1. For every event sequence and every clock reading, the content built by
the run equals the commit-aggregate line followed by a newline and
`truncate(render(e))` for each `e` among the first 19 events whose kind is in
the serializer registry, in source order: lines are separated by exactly one
newline and nothing follows the last line. Both sides throw together. -/
theorem content_eq_digestSpec (B : Builtins) (W now : Int) (events : List JSVal) :
    content B W now events = digestSpec B W now events := by
  unfold content contentLines digestSpec
  rw [extraContent_eq]
  cases commitContent B now events with
  | error e => rfl
  | ok first =>
    simp only [bind_ok]
    cases arrayFilter (hasSerializer B) events with
    | error e => rfl
    | ok interesting =>
      simp only []
      cases arrayMap (fun e => (serialize B e).map (truncate W)) (List.take 19 interesting) with
      | error e => rfl
      | ok body =>
        simp only [bind_ok, pure, Except.pure]
        rw [arrayJoin_cons]

/-! ## The commit aggregator -/

theorem get_of_isEventObject (e : JSVal) (h : isEventObject e = true) (key : JSString) :
    e.get key = .ok (field e key) := by
  cases e <;> simp [isEventObject] at h
  rfl

theorem isRecent_of_isEventObject (B : Builtins) (now : Int) (e : JSVal)
    (h : isEventObject e = true) : isRecent B now e = .ok (inWindow B now e) := by
  unfold isRecent inWindow eventTime
  rw [get_of_isEventObject e h]
  cases e with
  | obj fields =>
    simp only [isEventObject, Bool.and_eq_true] at h
    cases hc : field (JSVal.obj fields) (js "created_at") with
    | str s =>
      simp only [bind_ok, dateGetTime, toPrimitive]
      cases B.dateParse s <;> rfl
    | _ => rw [hc] at h; simp [JSVal.isStr] at h
  | _ => simp [isEventObject] at h

theorem isPush_of_isEventObject (e : JSVal) (h : isEventObject e = true) :
    isPush e = .ok (isPushEvent e) := by
  unfold isPush isPushEvent
  rw [get_of_isEventObject e h]
  rfl

theorem arrayFilter_eq_filter {α : Type} (f : α → Except JSError Bool) (g : α → Bool)
    (xs : List α) (h : ∀ x ∈ xs, f x = .ok (g x)) :
    arrayFilter f xs = .ok (xs.filter g) := by
  induction xs with
  | nil => rfl
  | cons x xs ih =>
    rw [arrayFilter, h x (List.mem_cons_self x xs),
      ih (fun y hy => h y (List.mem_cons_of_mem x hy))]
    cases hg : g x <;> simp [List.filter, hg]

theorem commits_eq (B : Builtins) (now : Int) (events : List JSVal)
    (hwf : ∀ e ∈ events, isEventObject e = true) :
    commits B now events
      = .ok (events.filter (fun e => isPushEvent e && inWindow B now e)) := by
  unfold commits
  rw [arrayFilter_eq_filter (isRecent B now) (inWindow B now) events
    (fun e he => isRecent_of_isEventObject B now e (hwf e he))]
  simp only [bind_ok]
  rw [arrayFilter_eq_filter isPush isPushEvent _
    (fun e he => isPush_of_isEventObject e (hwf e (List.mem_of_mem_filter he))),
    List.filter_filter]

theorem addNumbers_of_safe (B : Builtins) (m n : Int)
    (h : m.natAbs + n.natAbs ≤ 9007199254740991) :
    addNumbers B (some m) (some n) = .num (m + n) := by
  have h3 := Int.natAbs_add_le m n
  have e1 : isSafeInteger m = true := by simp only [isSafeInteger, decide_eq_true_eq]; omega
  have e2 : isSafeInteger n = true := by simp only [isSafeInteger, decide_eq_true_eq]; omega
  have e3 : isSafeInteger (m + n) = true := by
    simp only [isSafeInteger, decide_eq_true_eq]; omega
  simp [addNumbers, e1, e2, e3]

theorem commitCounter_num (B : Builtins) (k : Int) (c : JSVal)
    (hc : isEventObject c = true) (hs : hasIntegerSize c = true)
    (hb : k.natAbs + (pushSize c).natAbs ≤ 9007199254740991) :
    commitCounter B (.num k) c = .ok (.num (k + pushSize c)) := by
  unfold commitCounter
  rw [get_of_isEventObject c hc]
  simp only [bind_ok]
  unfold hasIntegerSize at hs
  unfold pushSize at hb ⊢
  cases hp : field c (js "payload") with
  | obj fields =>
    rw [hp] at hs hb
    have hg : (JSVal.obj fields).get (js "size") = .ok (field (JSVal.obj fields) (js "size")) :=
      rfl
    rw [hg]
    cases hz : field (JSVal.obj fields) (js "size") with
    | num n =>
      rw [hz] at hb
      simp only [bind_ok, add, toPrimitive, toNumber, pure, Except.pure]
      rw [addNumbers_of_safe B k n hb]
    | _ => rw [hz] at hs; simp at hs
  | _ => rw [hp] at hs; simp [field] at hs

theorem arrayReduce_commitCounter (B : Builtins) (cs : List JSVal) (k : Int)
    (hc : ∀ c ∈ cs, isEventObject c = true) (hs : ∀ c ∈ cs, hasIntegerSize c = true)
    (hb : k.natAbs + (cs.map (fun c => (pushSize c).natAbs)).sum ≤ 9007199254740991) :
    arrayReduce (commitCounter B) (.num k) cs = .ok (.num (k + (cs.map pushSize).sum)) := by
  induction cs generalizing k with
  | nil => simp [arrayReduce]
  | cons c cs ih =>
    simp only [List.map_cons, List.sum_cons] at hb
    rw [arrayReduce, commitCounter_num B k c (hc c (List.mem_cons_self c cs))
      (hs c (List.mem_cons_self c cs)) (by omega)]
    simp only []
    have h3 := Int.natAbs_add_le k (pushSize c)
    rw [ih (k + pushSize c) (fun d hd => hc d (List.mem_cons_of_mem c hd))
      (fun d hd => hs d (List.mem_cons_of_mem c hd)) (by omega)]
    simp [add_assoc]

theorem commitNum_eq (B : Builtins) (now : Int) (events : List JSVal)
    (hwf : ∀ e ∈ events, isEventObject e = true)
    (hsize : ∀ e ∈ events, isPushEvent e = true → inWindow B now e = true →
      hasIntegerSize e = true)
    (hbound : windowAbsTotal B now events ≤ 9007199254740991) :
    commitNum B now events = .ok (.num (windowPushTotal B now events)) := by
  unfold commitNum windowPushTotal
  rw [commits_eq B now events hwf]
  simp only [bind_ok]
  rw [arrayReduce_commitCounter B _ 0
    (fun c hc => hwf c (List.mem_of_mem_filter hc))
    (fun c hc => by
      have h2 := List.of_mem_filter hc
      simp only [Bool.and_eq_true] at h2
      exact hsize c (List.mem_of_mem_filter hc) h2.1 h2.2)
    (by simpa [windowAbsTotal] using hbound)]
  simp

theorem commitLine_num (B : Builtins) (n : Int) :
    commitLine B (.num n) = .ok
      (if 0 < n then
        if 1 < n then js "💻 Pushed " ++ numberToJSString B n ++ js " commits in the last week"
        else js "💻 Pushed " ++ numberToJSString B n ++ js " commit in the last week"
      else js "💻 No commits in the last week") := by
  simp only [commitLine, gtNumber, toPrimitive, toNumber, bind_ok, pure, Except.pure,
    JSVal.toJSString]
  by_cases h0 : 0 < n
  · by_cases h1 : 1 < n
    · simp [h0, h1]
    · simp [h0, h1]
  · simp [h0]

theorem natAbs_sum_le (xs : List Int) :
    xs.sum.natAbs ≤ (xs.map Int.natAbs).sum := by
  induction xs with
  | nil => simp
  | cons x xs ih =>
    simp only [List.sum_cons, List.map_cons]
    have h := Int.natAbs_add_le x xs.sum
    omega

theorem natAbs_windowPushTotal_le (B : Builtins) (now : Int) (events : List JSVal) :
    (windowPushTotal B now events).natAbs ≤ windowAbsTotal B now events := by
  unfold windowPushTotal windowAbsTotal
  have h := natAbs_sum_le
    ((events.filter (fun e => isPushEvent e && inWindow B now e)).map pushSize)
  simpa [List.map_map, Function.comp_def] using h

theorem windowPushTotal_insert (B : Builtins) (now : Int) (before after : List JSVal)
    (e : JSVal) :
    windowPushTotal B now (before ++ e :: after)
      = windowPushTotal B now (before ++ after)
        + (if isPushEvent e && inWindow B now e then pushSize e else 0) := by
  unfold windowPushTotal
  simp only [List.filter_append, List.filter_cons, List.map_append, List.sum_append]
  split
  · simp
    ring
  · simp

theorem windowAbsTotal_insert (B : Builtins) (now : Int) (before after : List JSVal)
    (e : JSVal) :
    windowAbsTotal B now (before ++ e :: after)
      = windowAbsTotal B now (before ++ after)
        + (if isPushEvent e && inWindow B now e then (pushSize e).natAbs else 0) := by
  unfold windowAbsTotal
  simp only [List.filter_append, List.filter_cons, List.map_append, List.sum_append]
  split
  · simp
    omega
  · simp

/-- C2, the example of the claim evaluated: for pushes of sizes 3 and 5 inside
the window and a push of size 2 that is eight days old the aggregator yields
`💻 Pushed 8 commits in the last week`, which starts with the marker glyph and
so is not the string `Pushed 8 commits in the last week` of the claim. Moreover
the count is a double sum: for in-window pushes of sizes 2^53 and 1 it is
9007199254740992, not the sum 9007199254740993 of the sizes. -/
theorem commitContent_has_glyph :
    commitContent sampleBuiltins sampleNow sampleWeek
      = .ok (js "💻 Pushed 8 commits in the last week") ∧
    commitContent sampleBuiltins sampleNow sampleWeek
      ≠ .ok (js "Pushed 8 commits in the last week") ∧
    commitNum sampleBuiltins sampleNow
        [samplePush (js "2024-01-07T12:00:00Z") 9007199254740992,
         samplePush (js "2024-01-07T12:00:00Z") 1]
      = .ok (.num 9007199254740992) ∧
    windowPushTotal sampleBuiltins sampleNow
        [samplePush (js "2024-01-07T12:00:00Z") 9007199254740992,
         samplePush (js "2024-01-07T12:00:00Z") 1]
      = 9007199254740993 :=
  ⟨by decide, by decide, rfl, by decide⟩

/-- C2 as amended. For every sequence of event objects whose push events inside
the window carry integer sizes with magnitudes summing to at most `2^53 - 1`
(so that the double sum is exact), and every clock reading, the commit count
equals the sum of `payload.size` over exactly the events with type `PushEvent`
and `now - created_at < 7 days`; the line is `💻 No commits in the last week`
when the count is 0 (or negative), `💻 Pushed 1 commit in the last week` when it
is 1, and `💻 Pushed count commits in the last week`, with the count in decimal
digits, when it is greater. -/
theorem commitAggregate_spec (B : Builtins) (now : Int) (events : List JSVal)
    (hwf : ∀ e ∈ events, isEventObject e = true)
    (hsize : ∀ e ∈ events, isPushEvent e = true → inWindow B now e = true →
      hasIntegerSize e = true)
    (hbound : windowAbsTotal B now events ≤ 9007199254740991) :
    commitNum B now events = .ok (.num (windowPushTotal B now events)) ∧
    (windowPushTotal B now events ≤ 0 →
      commitContent B now events = .ok (js "💻 No commits in the last week")) ∧
    (windowPushTotal B now events = 1 →
      commitContent B now events = .ok (js "💻 Pushed 1 commit in the last week")) ∧
    (1 < windowPushTotal B now events →
      commitContent B now events
        = .ok (js "💻 Pushed " ++ intToJSString (windowPushTotal B now events)
                ++ js " commits in the last week")) := by
  have hnum := commitNum_eq B now events hwf hsize hbound
  have hsafe : isSafeInteger (windowPushTotal B now events) = true := by
    have h := natAbs_windowPushTotal_le B now events
    simp only [isSafeInteger, decide_eq_true_eq]
    omega
  have hline : commitContent B now events
      = commitLine B (.num (windowPushTotal B now events)) := by
    unfold commitContent
    rw [hnum]
    rfl
  refine ⟨hnum, fun h => ?_, fun h => ?_, fun h => ?_⟩
  · rw [hline, commitLine_num, if_neg (by omega)]
  · rw [hline, commitLine_num, numberToJSString_of_safe B _ hsafe, h]
    decide
  · rw [hline, commitLine_num, numberToJSString_of_safe B _ hsafe, if_pos (by omega),
      if_pos h]

/-- Witness of C2 as amended, at the example of the specification: the count is
3 + 5 = 8 and the line is the plural one. -/
theorem commitAggregate_spec_witness :
    windowAbsTotal sampleBuiltins sampleNow sampleWeek ≤ 9007199254740991 ∧
    commitNum sampleBuiltins sampleNow sampleWeek
      = .ok (.num (windowPushTotal sampleBuiltins sampleNow sampleWeek)) ∧
    windowPushTotal sampleBuiltins sampleNow sampleWeek = 8 ∧
    commitContent sampleBuiltins sampleNow sampleWeek
      = .ok (js "💻 Pushed " ++ intToJSString (windowPushTotal sampleBuiltins sampleNow sampleWeek)
              ++ js " commits in the last week") :=
  ⟨by decide,
   (commitAggregate_spec sampleBuiltins sampleNow sampleWeek (by decide) (by decide)
     (by decide)).1,
   by decide,
   (commitAggregate_spec sampleBuiltins sampleNow sampleWeek (by decide) (by decide)
     (by decide)).2.2.2 (by decide)⟩

/-- C3, counterexample: next to an in-window push of size 2^53, a push of size 1
stamped one millisecond inside the window is let through by the window test
but adds nothing to the count: the double sum 2^53 + 1 rounds to 2^53, the count
and the line are those of the sequence without it. -/
theorem younger_push_lost_to_rounding :
    eventTime sampleBuiltins (samplePush (js "2024-01-01T00:00:00.001Z") 1)
      = some (sampleNow - 7 * 24 * 60 * 60 * 1000 + 1) ∧
    commits sampleBuiltins sampleNow
        [samplePush (js "2024-01-07T12:00:00Z") 9007199254740992,
         samplePush (js "2024-01-01T00:00:00.001Z") 1]
      = .ok [samplePush (js "2024-01-07T12:00:00Z") 9007199254740992,
             samplePush (js "2024-01-01T00:00:00.001Z") 1] ∧
    commitNum sampleBuiltins sampleNow
        [samplePush (js "2024-01-07T12:00:00Z") 9007199254740992,
         samplePush (js "2024-01-01T00:00:00.001Z") 1]
      = .ok (.num 9007199254740992) ∧
    commitNum sampleBuiltins sampleNow
        [samplePush (js "2024-01-07T12:00:00Z") 9007199254740992]
      = .ok (.num 9007199254740992) ∧
    commitContent sampleBuiltins sampleNow
        [samplePush (js "2024-01-07T12:00:00Z") 9007199254740992,
         samplePush (js "2024-01-01T00:00:00.001Z") 1]
      = .ok (js "💻 Pushed 9007199254740992 commits in the last week") :=
  ⟨by decide, rfl, rfl, rfl, by decide⟩

/-- C3 as amended. The window test is strict: for every clock reading, a push
event whose timestamp is exactly `7 * 24 * 60 * 60 * 1000` ms before `now`
leaves the commit count as it is without the event, while a push event one
millisecond younger is counted, and adds its full size to the count when the
sizes of the push events inside the window are integers with magnitudes summing
to at most `2^53 - 1` (so that the double sum is exact). -/
theorem window_strict (B : Builtins) (now : Int) (before after : List JSVal) (e : JSVal)
    (hwf : ∀ x ∈ before ++ e :: after, isEventObject x = true)
    (hpush : isPushEvent e = true) :
    (eventTime B e = some (now - 7 * 24 * 60 * 60 * 1000) →
      commits B now (before ++ e :: after) = commits B now (before ++ after) ∧
      commitNum B now (before ++ e :: after) = commitNum B now (before ++ after)) ∧
    (eventTime B e = some (now - 7 * 24 * 60 * 60 * 1000 + 1) →
      (∃ cs, commits B now (before ++ e :: after) = .ok cs ∧ e ∈ cs) ∧
      ((∀ x ∈ before ++ e :: after, isPushEvent x = true → inWindow B now x = true →
          hasIntegerSize x = true) →
        windowAbsTotal B now (before ++ e :: after) ≤ 9007199254740991 →
        ∃ k : Int, commitNum B now (before ++ after) = .ok (.num k) ∧
          commitNum B now (before ++ e :: after) = .ok (.num (k + pushSize e)))) := by
  have hsub : ∀ x ∈ before ++ after, x ∈ before ++ e :: after := fun x hx => by
    rcases List.mem_append.mp hx with h | h
    · exact List.mem_append_left _ h
    · exact List.mem_append_right _ (List.mem_cons_of_mem e h)
  have hwf2 : ∀ x ∈ before ++ after, isEventObject x = true := fun x hx => hwf x (hsub x hx)
  refine ⟨fun ht => ?_, fun ht => ?_⟩
  · have hout : inWindow B now e = false := by
      simp [inWindow, ht]
    have hc : commits B now (before ++ e :: after) = commits B now (before ++ after) := by
      rw [commits_eq B now _ hwf, commits_eq B now _ hwf2]
      simp [List.filter_append, List.filter_cons, hout]
    refine ⟨hc, ?_⟩
    unfold commitNum
    rw [hc]
  · have hin : inWindow B now e = true := by
      simp only [inWindow, ht, decide_eq_true_eq]
      omega
    refine ⟨⟨_, commits_eq B now _ hwf, ?_⟩, fun hsize hbound => ?_⟩
    · refine List.mem_filter.mpr ⟨List.mem_append_right _ (List.mem_cons_self e after), ?_⟩
      rw [hpush, hin]
      rfl
    · have hb2 : windowAbsTotal B now (before ++ after) ≤ 9007199254740991 := by
        rw [windowAbsTotal_insert] at hbound
        omega
      have h1 := commitNum_eq B now _ hwf hsize hbound
      have h2 := commitNum_eq B now _ hwf2 (fun x hx => hsize x (hsub x hx)) hb2
      rw [windowPushTotal_insert] at h1
      refine ⟨_, h2, ?_⟩
      rw [h1, hpush, hin]
      simp

/-- Witness of C3 as amended with the clock at 2024-01-08T00:00:00Z: next to a
push of size 3, a push of size 5 stamped 2024-01-01T00:00:00Z (exactly seven
days old) leaves the count at 3, and one stamped a millisecond later makes it
8. -/
theorem window_strict_witness :
    commitNum sampleBuiltins sampleNow
        [samplePush (js "2024-01-07T12:00:00Z") 3, samplePush (js "2024-01-01T00:00:00Z") 5]
      = commitNum sampleBuiltins sampleNow [samplePush (js "2024-01-07T12:00:00Z") 3] ∧
    (∃ k : Int,
      commitNum sampleBuiltins sampleNow [samplePush (js "2024-01-07T12:00:00Z") 3]
        = .ok (.num k) ∧
      commitNum sampleBuiltins sampleNow
          [samplePush (js "2024-01-07T12:00:00Z") 3,
           samplePush (js "2024-01-01T00:00:00.001Z") 5]
        = .ok (.num (k + pushSize (samplePush (js "2024-01-01T00:00:00.001Z") 5)))) :=
  ⟨((window_strict sampleBuiltins sampleNow [samplePush (js "2024-01-07T12:00:00Z") 3] []
      (samplePush (js "2024-01-01T00:00:00Z") 5) (by decide) (by decide)).1
      (by decide)).2,
   ((window_strict sampleBuiltins sampleNow [samplePush (js "2024-01-07T12:00:00Z") 3] []
      (samplePush (js "2024-01-01T00:00:00.001Z") 5) (by decide) (by decide)).2
      (by decide)).2 (by decide) (by decide)⟩

/-! ## Number and width of the lines -/

theorem arrayMap_length {α β : Type} (f : α → Except JSError β) (xs : List α) (ys : List β)
    (h : arrayMap f xs = .ok ys) : ys.length = xs.length := by
  induction xs generalizing ys with
  | nil =>
    simp only [arrayMap, Except.ok.injEq] at h
    subst h
    rfl
  | cons x xs ih =>
    rw [arrayMap] at h
    cases hx : f x with
    | error e => rw [hx] at h; cases h
    | ok y =>
      rw [hx] at h
      cases hxs : arrayMap f xs with
      | error e => rw [hxs] at h; cases h
      | ok rest =>
        rw [hxs] at h
        simp only [Except.ok.injEq] at h
        subst h
        simp [ih rest hxs]

theorem extraContent_ok (B : Builtins) (W : Int) (events : List JSVal) (body : List JSString)
    (h : extraContent B W events = .ok body) :
    body.length ≤ 19 ∧ ∃ rendered : List JSString, body = rendered.map (truncate W) := by
  unfold extraContent at h
  cases hf : arrayFilter (hasSerializer B) events with
  | error e => rw [hf] at h; cases h
  | ok interesting =>
    rw [hf] at h
    simp only [bind_ok, slice_max_lines] at h
    cases hm : arrayMap (serialize B) (List.take 19 interesting) with
    | error e => rw [hm] at h; cases h
    | ok rendered =>
      rw [hm] at h
      simp only [bind_ok, pure, Except.pure, Except.ok.injEq] at h
      subst h
      refine ⟨?_, rendered, rfl⟩
      rw [List.length_map, arrayMap_length _ _ _ hm, List.length_take]
      exact Nat.min_le_left _ _

theorem contentLines_ok (B : Builtins) (W now : Int) (events : List JSVal)
    (ls : List JSString) (h : contentLines B W now events = .ok ls) :
    ∃ first body, ls = first :: body ∧ commitContent B now events = .ok first ∧
      extraContent B W events = .ok body := by
  unfold contentLines at h
  cases hc : commitContent B now events with
  | error e => rw [hc] at h; cases h
  | ok first =>
    rw [hc] at h
    cases he : extraContent B W events with
    | error e => rw [he] at h; cases h
    | ok body =>
      rw [he] at h
      simp only [bind_ok, pure, Except.pure, Except.ok.injEq] at h
      exact ⟨first, body, h.symm, rfl, rfl⟩

theorem splitNewline_length (s : JSString) : (splitNewline s).length = s.count 10 + 1 := by
  induction s with
  | nil => rfl
  | cons c cs ih =>
    rw [splitNewline]
    by_cases hc : c = 10
    · subst hc
      simp [ih]
    · rw [if_neg hc, List.count_cons_of_ne (fun h => hc h.symm)]
      cases hs : splitNewline cs with
      | nil => rw [hs] at ih; simp at ih
      | cons piece pieces => rw [hs] at ih; simpa using ih

theorem count_arrayJoin (x : JSString) (xs : List JSString)
    (h : ∀ l ∈ x :: xs, 10 ∉ l) : (arrayJoin (js "\n") (x :: xs)).count 10 = xs.length := by
  induction xs generalizing x with
  | nil =>
    simp only [arrayJoin, List.length_nil]
    exact List.count_eq_zero.mpr (h x (List.mem_cons_self x []))
  | cons y ys ih =>
    have hx : x.count 10 = 0 := List.count_eq_zero.mpr (h x (List.mem_cons_self x _))
    have hnl : (js "\n").count 10 = 1 := by decide
    rw [arrayJoin, List.count_append, List.count_append, hx, hnl,
      ih y (fun l hl => h l (List.mem_cons_of_mem x hl))]
    simp [Nat.add_comm]

/-- C5, counterexample: 19 star events on a repository whose name is a newline
give, at width 55, a content that is the join of 20 lines but splits on newline
into 39 pieces, more than `MAX_LINES`. -/
theorem content_pieces_exceed_max_lines :
    (contentLines sampleBuiltins 55 sampleNow (List.replicate 19 (sampleWatch (js "\n")))).map
        List.length = .ok 20 ∧
    (content sampleBuiltins 55 sampleNow (List.replicate 19 (sampleWatch (js "\n")))).map
        (fun d => (splitNewline d).length) = .ok 39 ∧
    (content sampleBuiltins 55 sampleNow (List.replicate 19 (sampleWatch (js "\n")))).map
        (fun d => decide (((splitNewline d).length : Int) ≤ MAX_LINES)) = .ok false :=
  ⟨by decide, by decide, by decide⟩

theorem splitNewline_append_newline (l rest : JSString) (h : 10 ∉ l) :
    splitNewline (l ++ 10 :: rest) = l :: splitNewline rest := by
  induction l with
  | nil => simp [splitNewline]
  | cons c cs ih =>
    have hc : c ≠ 10 := fun e => h (by rw [e]; exact List.mem_cons_self _ _)
    have hcs : 10 ∉ cs := fun hm => h (List.mem_cons_of_mem c hm)
    rw [List.cons_append, splitNewline, if_neg hc, ih hcs]

theorem splitNewline_of_no_newline (l : JSString) (h : 10 ∉ l) : splitNewline l = [l] := by
  induction l with
  | nil => rfl
  | cons c cs ih =>
    have hc : c ≠ 10 := fun e => h (by rw [e]; exact List.mem_cons_self _ _)
    have hcs : 10 ∉ cs := fun hm => h (List.mem_cons_of_mem c hm)
    rw [splitNewline, if_neg hc, ih hcs]

theorem splitNewline_arrayJoin (x : JSString) (xs : List JSString)
    (h : ∀ l ∈ x :: xs, 10 ∉ l) :
    splitNewline (arrayJoin (js "\n") (x :: xs)) = x :: xs := by
  induction xs generalizing x with
  | nil => exact splitNewline_of_no_newline x (h x (List.mem_cons_self x []))
  | cons y ys ih =>
    have e : js "\n" ++ arrayJoin (js "\n") (y :: ys)
        = 10 :: arrayJoin (js "\n") (y :: ys) := rfl
    rw [arrayJoin, List.append_assoc, e,
      splitNewline_append_newline x _ (h x (List.mem_cons_self x _)),
      ih y (fun l hl => h l (List.mem_cons_of_mem x hl))]

/-- C5 as amended. For every event sequence the content is the newline-join of
at most `MAX_LINES = 20` lines (the aggregate line and at most 19 body lines),
and when none of these lines contains a newline, splitting the content on
newline yields exactly these lines, hence as many pieces as lines and at most
20. -/
theorem content_line_count (B : Builtins) (W now : Int) (events : List JSVal)
    (ls : List JSString) (h : contentLines B W now events = .ok ls) :
    content B W now events = .ok (arrayJoin (js "\n") ls) ∧
    (ls.length : Int) ≤ MAX_LINES ∧
    ((∀ l ∈ ls, 10 ∉ l) →
      splitNewline (arrayJoin (js "\n") ls) = ls ∧
      (splitNewline (arrayJoin (js "\n") ls)).length = ls.length ∧
      ((splitNewline (arrayJoin (js "\n") ls)).length : Int) ≤ MAX_LINES) := by
  obtain ⟨first, body, rfl, _, hb⟩ := contentLines_ok B W now events ls h
  have hlen := (extraContent_ok B W events body hb).1
  have h20 : (((first :: body).length : Nat) : Int) ≤ MAX_LINES := by
    simp only [List.length_cons, MAX_LINES]
    omega
  refine ⟨?_, h20, fun hnl => ?_⟩
  · unfold content
    rw [h]
    rfl
  · have e := splitNewline_arrayJoin first body hnl
    exact ⟨e, by rw [e], by rw [e]; exact h20⟩

/-- Witness of C5 as amended: a star, a merged pull request and a push give
three lines, and splitting the content gives these three lines back. -/
theorem content_line_count_witness :
    content sampleBuiltins 55 sampleNow
        [sampleWatch (js "octo/repo"), samplePullRequest (js "closed") true 42,
         samplePush (js "2024-01-07T12:00:00Z") 4]
      = .ok (arrayJoin (js "\n")
          [js "💻 Pushed 4 commits in the last week", js "🌟 Starred repo: octo/repo",
           js "🎉 Merged PR #42 in octo/repo"]) ∧
    splitNewline (arrayJoin (js "\n")
          [js "💻 Pushed 4 commits in the last week", js "🌟 Starred repo: octo/repo",
           js "🎉 Merged PR #42 in octo/repo"])
      = [js "💻 Pushed 4 commits in the last week", js "🌟 Starred repo: octo/repo",
         js "🎉 Merged PR #42 in octo/repo"] :=
  ⟨(content_line_count sampleBuiltins 55 sampleNow
      [sampleWatch (js "octo/repo"), samplePullRequest (js "closed") true 42,
       samplePush (js "2024-01-07T12:00:00Z") 4]
      [js "💻 Pushed 4 commits in the last week", js "🌟 Starred repo: octo/repo",
       js "🎉 Merged PR #42 in octo/repo"] (by decide)).1,
   ((content_line_count sampleBuiltins 55 sampleNow
      [sampleWatch (js "octo/repo"), samplePullRequest (js "closed") true 42,
       samplePush (js "2024-01-07T12:00:00Z") 4]
      [js "💻 Pushed 4 commits in the last week", js "🌟 Starred repo: octo/repo",
       js "🎉 Merged PR #42 in octo/repo"] (by decide)).2.2 (by decide)).1⟩

/-- C6, counterexample: one in-window push whose `payload.size` is the string of
seventy nines. The reducer concatenates, `commitNum` is the string `0999…9`,
which compares greater than 1, and the first line
`💻 Pushed 0999…9 commits in the last week` has 106 code units: more than the
width 63, and more than the width 100, since the aggregate line is not
truncated at any width. -/
theorem first_line_exceeds_width :
    contentLines sampleBuiltins 63 sampleNow
        [samplePushStringSize (js "2024-01-07T12:00:00Z")
          (js "9999999999999999999999999999999999999999999999999999999999999999999999")]
      = .ok [js "💻 Pushed 09999999999999999999999999999999999999999999999999999999999999999999999 commits in the last week"] ∧
    contentLines sampleBuiltins 100 sampleNow
        [samplePushStringSize (js "2024-01-07T12:00:00Z")
          (js "9999999999999999999999999999999999999999999999999999999999999999999999")]
      = .ok [js "💻 Pushed 09999999999999999999999999999999999999999999999999999999999999999999999 commits in the last week"] ∧
    (js "💻 Pushed 09999999999999999999999999999999999999999999999999999999999999999999999 commits in the last week").length = 106 ∧
    ¬ (∀ l ∈ [js "💻 Pushed 09999999999999999999999999999999999999999999999999999999999999999999999 commits in the last week"], (l.length : Int) ≤ 63) ∧
    ¬ (∀ l ∈ [js "💻 Pushed 09999999999999999999999999999999999999999999999999999999999999999999999 commits in the last week"], (l.length : Int) ≤ 100) :=
  ⟨by decide, by decide, by decide, by decide, by decide⟩

/-- C6 as amended. For every event sequence and every width `W ≥ 3`, every line
of the digest after the first has at most `W` code units; the first line is the
aggregate line as computed, not truncated. -/
theorem body_lines_width (B : Builtins) (W now : Int) (events : List JSVal)
    (ls : List JSString) (hW : 3 ≤ W) (h : contentLines B W now events = .ok ls) :
    (∀ l ∈ ls.tail, (l.length : Int) ≤ W) ∧
    (commitContent B now events).map some = .ok ls.head? := by
  obtain ⟨first, body, rfl, hc, hb⟩ := contentLines_ok B W now events ls h
  obtain ⟨_, rendered, rfl⟩ := extraContent_ok B W events body hb
  refine ⟨fun l hl => ?_, ?_⟩
  · simp only [List.tail_cons, List.mem_map] at hl
    obtain ⟨r, _, rfl⟩ := hl
    exact truncate_length_le W r hW
  · rw [hc]
    rfl

/-- Witness of C6 as amended at width 20: the star line of 33 code units is cut
to its first 17 followed by the ellipsis, the aggregate line keeps its 30. -/
theorem body_lines_width_witness :
    (3 : Int) ≤ 20 ∧
    contentLines sampleBuiltins 20 sampleNow [sampleWatch (js "octo/a-long-name")]
      = .ok [js "💻 No commits in the last week", js "🌟 Starred repo: ..."] ∧
    (∀ l ∈ [js "💻 No commits in the last week", js "🌟 Starred repo: ..."].tail,
      (l.length : Int) ≤ 20) :=
  ⟨by decide, by decide,
   (body_lines_width sampleBuiltins 20 sampleNow [sampleWatch (js "octo/a-long-name")]
      [js "💻 No commits in the last week", js "🌟 Starred repo: ..."] (by decide)
      (by decide)).1⟩

/-! ## Events of unrecognised kinds -/

theorem toPrimitive_of_isPrimitive (B : Builtins) (v : JSVal) (h : isPrimitive v = true) :
    toPrimitive B v = .ok v := by
  cases v <;> simp [isPrimitive] at h <;> rfl

theorem isPrimitive_of_toPrimitive (B : Builtins) (v p : JSVal)
    (h : toPrimitive B v = .ok p) :
    isPrimitive p = true := by
  cases v with
  | arr items =>
    simp only [toPrimitive] at h
    cases hs : (JSVal.arr items).toJSString B with
    | error e => rw [hs] at h; cases h
    | ok s => rw [hs] at h; cases h; rfl
  | obj fields =>
    simp only [toPrimitive] at h
    cases hs : (JSVal.obj fields).toJSString B with
    | error e => rw [hs] at h; cases h
    | ok s => rw [hs] at h; cases h; rfl
  | _ => cases h; rfl

theorem toJSString_of_isPrimitive (B : Builtins) (v : JSVal) (h : isPrimitive v = true) :
    ∃ s, v.toJSString B = .ok s := by
  cases v <;> simp [isPrimitive] at h <;> simp [JSVal.toJSString]

theorem isPrimitive_addNumbers (B : Builtins) (x y : Option Int) :
    isPrimitive (addNumbers B x y) = true := by
  cases x with
  | none => cases y <;> rfl
  | some m =>
    cases y with
    | none => rfl
    | some n =>
      simp only [addNumbers]
      by_cases h : (isSafeInteger m && isSafeInteger n && isSafeInteger (m + n)) = true
      · rw [if_pos h]; rfl
      · rw [if_neg h]
        cases B.addDoubles m n <;> rfl

theorem add_of_primitives (B : Builtins) (a b : JSVal) (ha : isPrimitive a = true)
    (hb : isPrimitive b = true) : ∃ v, add B a b = .ok v ∧ isPrimitive v = true := by
  unfold add
  rw [toPrimitive_of_isPrimitive B a ha, toPrimitive_of_isPrimitive B b hb]
  simp only [bind_ok]
  obtain ⟨sa, hsa⟩ := toJSString_of_isPrimitive B a ha
  obtain ⟨sb, hsb⟩ := toJSString_of_isPrimitive B b hb
  cases a <;> cases b <;> simp [isPrimitive] at ha hb <;>
    simp [hsa, hsb, bind_ok, pure, Except.pure, isPrimitive_addNumbers, JSVal.toJSString] <;> rfl

theorem error_eq (e : JSError) : e = .typeError := by
  cases e; rfl

theorem add_toPrimitive (B : Builtins) (a b pb : JSVal) (h : toPrimitive B b = .ok pb) :
    add B a b = add B a pb := by
  unfold add
  rw [h, toPrimitive_of_isPrimitive B pb (isPrimitive_of_toPrimitive B b pb h)]

theorem commitCounter_of_readsSize (B : Builtins) (acc c : JSVal)
    (hacc : isPrimitive acc = true) :
    (readsSize B c = true → ∃ v, commitCounter B acc c = .ok v ∧ isPrimitive v = true) ∧
    (readsSize B c = false → commitCounter B acc c = .error .typeError) := by
  unfold readsSize commitCounter
  cases hp : c.get (js "payload") with
  | error e => cases e; simp; rfl
  | ok p =>
    simp only [bind_ok]
    cases hs : p.get (js "size") with
    | error e => cases e; simp; rfl
    | ok v =>
      simp only [bind_ok]
      cases hv : toPrimitive B v with
      | error e =>
        cases e
        simp [Except.isOk, Except.toBool]
        unfold add
        rw [toPrimitive_of_isPrimitive B acc hacc, hv]
        rfl
      | ok pv =>
        simp [Except.isOk, Except.toBool]
        rw [add_toPrimitive B acc v pv hv]
        exact add_of_primitives B acc pv hacc (isPrimitive_of_toPrimitive B v pv hv)

theorem arrayReduce_commitCounter_isOk (B : Builtins) (cs : List JSVal) (acc : JSVal)
    (hacc : isPrimitive acc = true) :
    (cs.all (readsSize B) = true →
      ∃ v, arrayReduce (commitCounter B) acc cs = .ok v ∧ isPrimitive v = true) ∧
    (cs.all (readsSize B) = false →
      arrayReduce (commitCounter B) acc cs = .error .typeError) := by
  induction cs generalizing acc with
  | nil => exact ⟨fun _ => ⟨acc, rfl, hacc⟩, fun h => by simp at h⟩
  | cons c cs ih =>
    have hc := commitCounter_of_readsSize B acc c hacc
    rw [arrayReduce, List.all_cons]
    cases hr : readsSize B c with
    | false =>
      rw [hc.2 hr]
      simp
    | true =>
      obtain ⟨v, hv, hprim⟩ := hc.1 hr
      rw [hv]
      simpa using ih v hprim

theorem commitLine_of_isPrimitive (B : Builtins) (v : JSVal) (h : isPrimitive v = true) :
    ∃ s, commitLine B v = .ok s := by
  obtain ⟨t, ht⟩ := toJSString_of_isPrimitive B v h
  simp only [commitLine, gtNumber, toPrimitive_of_isPrimitive B v h, bind_ok, ht, pure,
    Except.pure]
  cases toNumber B v with
  | none => exact ⟨_, rfl⟩
  | some n =>
    simp only []
    by_cases h0 : 0 < n
    · by_cases h1 : 1 < n
      · simp [h0, h1, bind_ok]
      · simp [h0, h1, bind_ok]
    · simp [h0, bind_ok]

theorem arrayFilter_inserts (f : JSVal → Except JSError Bool) (P : JSVal → Prop)
    (hP : ∀ x, P x → ∃ b, f x = .ok b) {l l2 : List JSVal} (h : Inserts P l l2) :
    (arrayFilter f l = .error .typeError ∧ arrayFilter f l2 = .error .typeError) ∨
    (∃ r r2, arrayFilter f l = .ok r ∧ arrayFilter f l2 = .ok r2 ∧
      Inserts (fun x => P x ∧ f x = .ok true) r r2) := by
  induction h with
  | nil => exact Or.inr ⟨[], [], rfl, rfl, Inserts.nil⟩
  | keep e _ ih =>
    rw [arrayFilter, arrayFilter]
    cases hf : f e with
    | error err => cases err; exact Or.inl ⟨rfl, rfl⟩
    | ok b =>
      rcases ih with ⟨h1, h2⟩ | ⟨r, r2, h1, h2, hr⟩
      · rw [h1, h2]; exact Or.inl ⟨rfl, rfl⟩
      · rw [h1, h2]
        refine Or.inr ⟨_, _, rfl, rfl, ?_⟩
        cases b
        · exact hr
        · exact Inserts.keep e hr
  | insert x hx _ ih =>
    obtain ⟨b, hb⟩ := hP x hx
    rw [arrayFilter, hb]
    rcases ih with ⟨h1, h2⟩ | ⟨r, r2, h1, h2, hr⟩
    · rw [h2]; exact Or.inl ⟨h1, rfl⟩
    · rw [h2]
      refine Or.inr ⟨_, _, h1, rfl, ?_⟩
      cases b
      · exact hr
      · exact Inserts.insert x ⟨hx, hb⟩ hr

theorem all_readsSize_inserts (B : Builtins) (Q : JSVal → Prop)
    (hQ : ∀ x, Q x → readsSize B x = true)
    {l l2 : List JSVal} (h : Inserts Q l l2) :
    l2.all (readsSize B) = l.all (readsSize B) := by
  induction h with
  | nil => rfl
  | keep e _ ih => rw [List.all_cons, List.all_cons, ih]
  | insert x hx _ ih => rw [List.all_cons, hQ x hx, ih]; rfl

theorem readsSize_of_hasIntegerSize (B : Builtins) (x : JSVal) (hx : isEventObject x = true)
    (hs : hasIntegerSize x = true) : readsSize B x = true := by
  unfold readsSize
  rw [get_of_isEventObject x hx]
  unfold hasIntegerSize at hs
  cases hp : field x (js "payload") with
  | obj fields =>
    rw [hp] at hs
    have hg : (JSVal.obj fields).get (js "size") = .ok (field (JSVal.obj fields) (js "size")) :=
      rfl
    simp only [hg]
    cases hz : field (JSVal.obj fields) (js "size") with
    | num n => rfl
    | _ => rw [hz] at hs; simp at hs
  | _ => rw [hp] at hs; simp [field] at hs

theorem commitContent_isOk (B : Builtins) (now : Int) (events : List JSVal) :
    (commitContent B now events).isOk =
      match commits B now events with
      | .ok cs => cs.all (readsSize B)
      | .error _ => false := by
  unfold commitContent commitNum
  cases hc : commits B now events with
  | error e => rfl
  | ok cs =>
    simp only [bind_ok]
    have hr := arrayReduce_commitCounter_isOk B cs (.num 0) rfl
    cases ha : cs.all (readsSize B) with
    | false => rw [hr.2 ha]; rfl
    | true =>
      obtain ⟨v, hv, hprim⟩ := hr.1 ha
      obtain ⟨s, hs⟩ := commitLine_of_isPrimitive B v hprim
      rw [hv]
      simp only [bind_ok, hs]
      rfl

theorem commitContent_isOk_inserts (B : Builtins) (now : Int) {l l2 : List JSVal}
    (h : Inserts (unrecognized B) l l2) :
    (commitContent B now l2).isOk = (commitContent B now l).isOk := by
  rw [commitContent_isOk, commitContent_isOk]
  unfold commits
  rcases arrayFilter_inserts (isRecent B now) (unrecognized B)
      (fun x hx => ⟨_, isRecent_of_isEventObject B now x hx.1⟩) h with
    ⟨h1, h2⟩ | ⟨r, r2, h1, h2, hr⟩
  · rw [h1, h2]
  · rw [h1, h2]
    simp only [bind_ok]
    rcases arrayFilter_inserts isPush _
        (fun x hx => ⟨_, isPush_of_isEventObject x hx.1.1⟩) hr with
      ⟨h3, h4⟩ | ⟨cs, cs2, h3, h4, hcs⟩
    · rw [h3, h4]
    · rw [h3, h4]
      simp only []
      refine all_readsSize_inserts B _ (fun x hx => ?_) hcs
      have hpush : isPushEvent x = true := by
        have := isPush_of_isEventObject x hx.1.1.1
        rw [hx.2] at this
        exact (Except.ok.inj this).symm
      exact readsSize_of_hasIntegerSize B x hx.1.1.1 (hx.1.1.2.2 hpush)

theorem arrayFilter_hasSerializer_inserts (B : Builtins) {l l2 : List JSVal}
    (h : Inserts (unrecognized B) l l2) :
    arrayFilter (hasSerializer B) l2 = arrayFilter (hasSerializer B) l := by
  induction h with
  | nil => rfl
  | keep e _ ih => rw [arrayFilter, arrayFilter, ih]
  | insert x hx _ ih =>
    rw [arrayFilter, hx.2.1, ih]
    cases arrayFilter (hasSerializer B) _ <;> rfl

theorem extraContent_inserts (B : Builtins) (W : Int) {l l2 : List JSVal}
    (h : Inserts (unrecognized B) l l2) : extraContent B W l2 = extraContent B W l := by
  unfold extraContent
  rw [arrayFilter_hasSerializer_inserts B h]

/-- C10. Events whose kind is not a key of the serializer registry (such as
`GollumEvent`, and also `PushEvent`) are excluded without consuming the budget
of 19 body lines: if `l2` is `l` with any number of such events inserted at any
positions, the body lines are the same, and the lines of the digest are
assembled for `l2` exactly when they are for `l`, with the same lines after the
first. -/
theorem unrecognized_insertion (B : Builtins) (W now : Int) (l l2 : List JSVal)
    (h : Inserts (unrecognized B) l l2) :
    extraContent B W l2 = extraContent B W l ∧
    (contentLines B W now l2).map List.tail = (contentLines B W now l).map List.tail := by
  refine ⟨extraContent_inserts B W h, ?_⟩
  have hok := commitContent_isOk_inserts B now h
  unfold contentLines
  rw [extraContent_inserts B W h]
  cases h1 : commitContent B now l with
  | error e =>
    rw [h1] at hok
    cases h2 : commitContent B now l2 with
    | error e2 => cases e; cases e2; rfl
    | ok s2 => rw [h2] at hok; cases hok
  | ok s =>
    rw [h1] at hok
    cases h2 : commitContent B now l2 with
    | error e2 => rw [h2] at hok; cases hok
    | ok s2 =>
      simp only [bind_ok]
      cases extraContent B W l <;> rfl

/-- Witness of C10: a wiki event and a push inserted around one star event. -/
theorem unrecognized_insertion_witness :
    Inserts (unrecognized sampleBuiltins) [sampleWatch (js "octo/repo")]
      [sampleGollum, sampleWatch (js "octo/repo"),
       samplePush (js "2024-01-07T12:00:00Z") 4] ∧
    extraContent sampleBuiltins 55
        [sampleGollum, sampleWatch (js "octo/repo"), samplePush (js "2024-01-07T12:00:00Z") 4]
      = extraContent sampleBuiltins 55 [sampleWatch (js "octo/repo")] ∧
    (contentLines sampleBuiltins 55 sampleNow
        [sampleGollum, sampleWatch (js "octo/repo"),
         samplePush (js "2024-01-07T12:00:00Z") 4]).map List.tail
      = .ok [js "🌟 Starred repo: octo/repo"] := by
  have h : Inserts (unrecognized sampleBuiltins) [sampleWatch (js "octo/repo")]
      [sampleGollum, sampleWatch (js "octo/repo"),
       samplePush (js "2024-01-07T12:00:00Z") 4] :=
    Inserts.insert _ (by unfold unrecognized; decide)
      (Inserts.keep _ (Inserts.insert _ (by unfold unrecognized; decide) Inserts.nil))
  refine ⟨h, (unrecognized_insertion sampleBuiltins 55 sampleNow _ _ h).1, ?_⟩
  rw [(unrecognized_insertion sampleBuiltins 55 sampleNow _ _ h).2]
  decide

/-! ## Idempotence of truncation -/

/-- C18. The function `truncate` is idempotent: for every string `s` and width
`W = MAX_LENGTH` with `W ≥ 3`, `truncate(truncate(s)) = truncate(s)`. -/
theorem truncate_idempotent (W : Int) (s : JSString) (hW : 3 ≤ W) :
    truncate W (truncate W s) = truncate W s :=
  truncate_of_le W (truncate W s) (truncate_length_le W s hW)

/-- Witness of C18 at width 10 on a string that is cut. -/
theorem truncate_idempotent_witness :
    (3 : Int) ≤ 10 ∧ truncate 10 (js "octo/capybara") = js "octo/ca..." ∧
    truncate 10 (truncate 10 (js "octo/capybara")) = truncate 10 (js "octo/capybara") :=
  ⟨by decide, by decide, truncate_idempotent 10 (js "octo/capybara") (by decide)⟩

/-! ## Order and number of the body lines -/

theorem arrayFilter_ok {α : Type} (f : α → Except JSError Bool) (xs r : List α)
    (h : arrayFilter f xs = .ok r) :
    r = xs.filter (fun x => decide (f x = .ok true)) := by
  induction xs generalizing r with
  | nil =>
    simp only [arrayFilter, Except.ok.injEq] at h
    subst h
    rfl
  | cons x xs ih =>
    rw [arrayFilter] at h
    cases hx : f x with
    | error e => rw [hx] at h; cases h
    | ok b =>
      rw [hx] at h
      cases hxs : arrayFilter f xs with
      | error e => rw [hxs] at h; cases h
      | ok rest =>
        rw [hxs] at h
        simp only [Except.ok.injEq] at h
        subst h
        rw [List.filter_cons, ← ih rest hxs]
        cases b <;> simp [hx]

theorem arrayMap_forall₂ {α β : Type} (f : α → Except JSError β) (xs : List α) (ys : List β)
    (h : arrayMap f xs = .ok ys) : List.Forall₂ (fun x y => f x = .ok y) xs ys := by
  induction xs generalizing ys with
  | nil =>
    simp only [arrayMap, Except.ok.injEq] at h
    subst h
    exact List.Forall₂.nil
  | cons x xs ih =>
    rw [arrayMap] at h
    cases hx : f x with
    | error e => rw [hx] at h; cases h
    | ok y =>
      rw [hx] at h
      cases hxs : arrayMap f xs with
      | error e => rw [hxs] at h; cases h
      | ok rest =>
        rw [hxs] at h
        simp only [Except.ok.injEq] at h
        subst h
        exact List.Forall₂.cons hx (ih rest hxs)

theorem extraContent_shown (B : Builtins) (W : Int) (events : List JSVal)
    (body : List JSString) (h : extraContent B W events = .ok body) :
    arrayFilter (hasSerializer B) events = .ok (events.filter (inRegistry B)) ∧
    List.Forall₂ (fun e line => (serialize B e).map (truncate W) = .ok line)
      ((events.filter (inRegistry B)).take 19) body := by
  rw [extraContent_eq] at h
  cases hf : arrayFilter (hasSerializer B) events with
  | error e => rw [hf] at h; cases h
  | ok interesting =>
    rw [hf] at h
    have e := arrayFilter_ok _ _ _ hf
    have e2 : events.filter (inRegistry B) = interesting := e.symm
    rw [e2]
    exact ⟨rfl, arrayMap_forall₂ _ _ _ h⟩

theorem bind_error {α β : Type} (e : JSError) (f : α → Except JSError β) :
    (Except.error e >>= f) = .error e := rfl

theorem commitLine_ne_nil (B : Builtins) (v : JSVal) (s : JSString)
    (h : commitLine B v = .ok s) : s ≠ [] := by
  unfold commitLine at h
  cases h0 : gtNumber B v 0 with
  | error e => rw [h0] at h; simp [bind_error] at h
  | ok b0 =>
    rw [h0] at h
    simp only [bind_ok] at h
    cases b0 with
    | false =>
      simp only [Bool.false_eq_true, if_false, pure, Except.pure, Except.ok.injEq] at h
      rw [← h]
      decide
    | true =>
      simp only [if_true] at h
      cases h1 : gtNumber B v 1 with
      | error e => rw [h1] at h; simp [bind_error] at h
      | ok b1 =>
        rw [h1] at h
        simp only [bind_ok] at h
        cases ht : v.toJSString B with
        | error e => rw [ht] at h; cases b1 <;> simp [bind_error] at h
        | ok t =>
          rw [ht] at h
          cases b1 <;>
            simp only [Bool.false_eq_true, if_false, if_true, bind_ok, pure, Except.pure,
              Except.ok.injEq] at h <;>
            · rw [← h]
              have e : js "💻 Pushed " = 55357 :: 56507 :: js " Pushed " := by decide
              rw [e]
              simp

/-- C11. Order preservation: when the body is built, the events rendered in it
are the first 19 of the subsequence of registry-kind events of the source (a
beginning of that subsequence), line `i` of the body is the truncated rendering
of the `i`-th of them, and they occur in the source in the same order: there is
an order-preserving embedding of the body positions into the source positions,
so of two rendered events the one earlier in the source is on the earlier
line. -/
theorem body_order (B : Builtins) (W : Int) (events : List JSVal)
    (body : List JSString) (h : extraContent B W events = .ok body) :
    ∃ shown : List JSVal,
      shown = (events.filter (inRegistry B)).take 19 ∧
      (∃ rest, events.filter (inRegistry B) = shown ++ rest) ∧
      List.Sublist shown events ∧
      List.Forall₂ (fun e line => (serialize B e).map (truncate W) = .ok line) shown body ∧
      (∃ f : Fin shown.length ↪o Fin events.length,
        ∀ i : Fin shown.length, shown.get i = events.get (f i)) := by
  have hs := (extraContent_shown B W events body h).2
  have hsub : List.Sublist ((events.filter (inRegistry B)).take 19) events :=
    (List.take_sublist _ _).trans (List.filter_sublist _)
  exact ⟨_, rfl, ⟨_, (List.take_append_drop 19 _).symm⟩, hsub, hs,
    List.sublist_iff_exists_fin_orderEmbedding_get_eq.mp hsub⟩

/-- Witness of C11: two star events separated by a wiki event and a push are
rendered in their source order. -/
theorem body_order_witness :
    extraContent sampleBuiltins 55
        [sampleGollum, sampleWatch (js "octo/a"), samplePush (js "2024-01-07T12:00:00Z") 4,
         sampleWatch (js "octo/b")]
      = .ok [js "🌟 Starred repo: octo/a", js "🌟 Starred repo: octo/b"] ∧
    ∃ shown : List JSVal,
      shown = ([sampleGollum, sampleWatch (js "octo/a"),
          samplePush (js "2024-01-07T12:00:00Z") 4,
          sampleWatch (js "octo/b")].filter (inRegistry sampleBuiltins)).take 19 ∧
      (∃ rest, [sampleGollum, sampleWatch (js "octo/a"),
          samplePush (js "2024-01-07T12:00:00Z") 4,
          sampleWatch (js "octo/b")].filter (inRegistry sampleBuiltins) = shown ++ rest) ∧
      List.Sublist shown [sampleGollum, sampleWatch (js "octo/a"),
          samplePush (js "2024-01-07T12:00:00Z") 4, sampleWatch (js "octo/b")] ∧
      List.Forall₂ (fun e line => (serialize sampleBuiltins e).map (truncate 55) = .ok line)
        shown [js "🌟 Starred repo: octo/a", js "🌟 Starred repo: octo/b"] ∧
      (∃ f : Fin shown.length ↪o Fin [sampleGollum, sampleWatch (js "octo/a"),
          samplePush (js "2024-01-07T12:00:00Z") 4, sampleWatch (js "octo/b")].length,
        ∀ i : Fin shown.length, shown.get i = [sampleGollum, sampleWatch (js "octo/a"),
          samplePush (js "2024-01-07T12:00:00Z") 4, sampleWatch (js "octo/b")].get (f i)) :=
  ⟨by decide, body_order sampleBuiltins 55 _ _ (by decide)⟩

/-- C16. Provided no line of the digest contains a newline, the digest has
exactly `1 + min(19, k)` lines, where `k` is the number of events of the source
whose kind is in the registry; its first line is the commit-aggregate line, so
the digest is never empty, and for the empty event sequence it is the
no-commits line alone. -/
theorem content_line_number (B : Builtins) (W now : Int) (events : List JSVal)
    (ls : List JSString) (h : contentLines B W now events = .ok ls)
    (hnl : ∀ l ∈ ls, 10 ∉ l) :
    ls.length = 1 + min 19 (events.filter (inRegistry B)).length ∧
    content B W now events = .ok (arrayJoin (js "\n") ls) ∧
    (splitNewline (arrayJoin (js "\n") ls)).length
      = 1 + min 19 (events.filter (inRegistry B)).length ∧
    (commitContent B now events).map some = .ok ls.head? ∧
    arrayJoin (js "\n") ls ≠ [] ∧
    content B W now [] = .ok (js "💻 No commits in the last week") := by
  obtain ⟨first, body, rfl, hc, hb⟩ := contentLines_ok B W now events ls h
  have hlen : body.length = min 19 (events.filter (inRegistry B)).length := by
    have hs := (extraContent_shown B W events body hb).2
    rw [← hs.length_eq, List.length_take]
  have hfirst : first ≠ [] := by
    unfold commitContent at hc
    cases hn : commitNum B now events with
    | error e => rw [hn] at hc; simp [bind_error] at hc
    | ok v =>
      rw [hn] at hc
      exact commitLine_ne_nil B v first hc
  refine ⟨?_, ?_, ?_, ?_, ?_, rfl⟩
  · simp only [List.length_cons, hlen]
    omega
  · unfold content
    rw [h]
    rfl
  · rw [splitNewline_length, count_arrayJoin first body hnl, hlen]
    omega
  · rw [hc]
    rfl
  · rw [arrayJoin_cons]
    intro hnil
    exact hfirst (List.append_eq_nil.mp hnil).1

/-- Witness of C16: one wiki event, two stars and a push give `1 + 2` lines. -/
theorem content_line_number_witness :
    contentLines sampleBuiltins 55 sampleNow
        [sampleGollum, sampleWatch (js "octo/a"), samplePush (js "2024-01-07T12:00:00Z") 4,
         sampleWatch (js "octo/b")]
      = .ok [js "💻 Pushed 4 commits in the last week", js "🌟 Starred repo: octo/a",
             js "🌟 Starred repo: octo/b"] ∧
    ([sampleGollum, sampleWatch (js "octo/a"), samplePush (js "2024-01-07T12:00:00Z") 4,
        sampleWatch (js "octo/b")].filter (inRegistry sampleBuiltins)).length = 2 ∧
    (splitNewline (arrayJoin (js "\n")
        [js "💻 Pushed 4 commits in the last week", js "🌟 Starred repo: octo/a",
         js "🌟 Starred repo: octo/b"])).length
      = 1 + min 19 ([sampleGollum, sampleWatch (js "octo/a"),
          samplePush (js "2024-01-07T12:00:00Z") 4,
          sampleWatch (js "octo/b")].filter (inRegistry sampleBuiltins)).length :=
  ⟨by decide, by decide,
   (content_line_number sampleBuiltins 55 sampleNow
      [sampleGollum, sampleWatch (js "octo/a"), samplePush (js "2024-01-07T12:00:00Z") 4,
       sampleWatch (js "octo/b")]
      [js "💻 Pushed 4 commits in the last week", js "🌟 Starred repo: octo/a",
       js "🌟 Starred repo: octo/b"] (by decide) (by decide)).2.2.1⟩

/-! ## Invariance of the aggregate line -/

theorem windowPushTotal_perm (B : Builtins) (now : Int) (l1 l2 : List JSVal)
    (h : List.Perm (l1.filter (fun e => isPushEvent e && inWindow B now e))
      (l2.filter (fun e => isPushEvent e && inWindow B now e))) :
    windowPushTotal B now l1 = windowPushTotal B now l2 := by
  unfold windowPushTotal
  exact (h.map pushSize).sum_eq

theorem windowAbsTotal_perm (B : Builtins) (now : Int) (l1 l2 : List JSVal)
    (h : List.Perm (l1.filter (fun e => isPushEvent e && inWindow B now e))
      (l2.filter (fun e => isPushEvent e && inWindow B now e))) :
    windowAbsTotal B now l1 = windowAbsTotal B now l2 := by
  unfold windowAbsTotal
  exact (h.map (fun e => (pushSize e).natAbs)).sum_eq

theorem commitContent_of_total (B : Builtins) (now : Int) (events : List JSVal)
    (hwf : ∀ e ∈ events, isEventObject e = true)
    (hsize : ∀ e ∈ events, isPushEvent e = true → inWindow B now e = true →
      hasIntegerSize e = true)
    (hbound : windowAbsTotal B now events ≤ 9007199254740991) :
    commitContent B now events = commitLine B (.num (windowPushTotal B now events)) := by
  unfold commitContent
  rw [commitNum_eq B now events hwf hsize hbound]
  rfl

theorem inWindow_of_old (B : Builtins) (now : Int) (x : JSVal) (t : Int)
    (ht : eventTime B x = some t) (hold : 7 * 24 * 60 * 60 * 1000 ≤ now - t) :
    inWindow B now x = false := by
  simp only [inWindow, ht, decide_eq_false_iff_not]
  omega

/-- C17, counterexample: the in-window push sizes 2^53, 1, 1 and their
permutation 1, 1, 2^53. In the first order each double sum 2^53 + 1 rounds back
to 2^53 and the line reports 9007199254740992 commits; in the second order
1 + 1 + 2^53 is exact and the line reports 9007199254740994 commits. -/
theorem aggregate_line_depends_on_order :
    List.Perm
      [samplePush (js "2024-01-07T12:00:00Z") 9007199254740992,
       samplePush (js "2024-01-07T12:00:00Z") 1, samplePush (js "2024-01-07T12:00:00Z") 1]
      [samplePush (js "2024-01-07T12:00:00Z") 1, samplePush (js "2024-01-07T12:00:00Z") 1,
       samplePush (js "2024-01-07T12:00:00Z") 9007199254740992] ∧
    commitContent sampleBuiltins sampleNow
        [samplePush (js "2024-01-07T12:00:00Z") 9007199254740992,
         samplePush (js "2024-01-07T12:00:00Z") 1, samplePush (js "2024-01-07T12:00:00Z") 1]
      = .ok (js "💻 Pushed 9007199254740992 commits in the last week") ∧
    commitContent sampleBuiltins sampleNow
        [samplePush (js "2024-01-07T12:00:00Z") 1, samplePush (js "2024-01-07T12:00:00Z") 1,
         samplePush (js "2024-01-07T12:00:00Z") 9007199254740992]
      = .ok (js "💻 Pushed 9007199254740994 commits in the last week") ∧
    commitContent sampleBuiltins sampleNow
        [samplePush (js "2024-01-07T12:00:00Z") 9007199254740992,
         samplePush (js "2024-01-07T12:00:00Z") 1, samplePush (js "2024-01-07T12:00:00Z") 1]
      ≠ commitContent sampleBuiltins sampleNow
        [samplePush (js "2024-01-07T12:00:00Z") 1, samplePush (js "2024-01-07T12:00:00Z") 1,
         samplePush (js "2024-01-07T12:00:00Z") 9007199254740992] :=
  ⟨@List.perm_append_comm JSVal
      [samplePush (js "2024-01-07T12:00:00Z") 9007199254740992]
      [samplePush (js "2024-01-07T12:00:00Z") 1, samplePush (js "2024-01-07T12:00:00Z") 1],
   by decide, by decide, by decide⟩

/-- C17 as amended. For sequences of event objects whose in-window push events
carry integer sizes with magnitudes summing to at most `2^53 - 1` (so that the
double sum is exact in every order), the commit-aggregate line depends only on
the multiset of push events inside the window: two sequences with the same
in-window push events up to order give the same line, in particular a
permutation of the sequence does. Whatever the sizes are, inserting (or
removing) anywhere an event object that is not a push event or is 7 or more
days old leaves the line unchanged. The cap of 19 body lines plays no part. -/
theorem aggregate_line_invariance (B : Builtins) (now : Int) :
    (∀ l1 l2 : List JSVal,
      (∀ e ∈ l1, isEventObject e = true) →
      (∀ e ∈ l1, isPushEvent e = true → inWindow B now e = true → hasIntegerSize e = true) →
      windowAbsTotal B now l1 ≤ 9007199254740991 →
      (∀ e ∈ l2, isEventObject e = true) →
      (∀ e ∈ l2, isPushEvent e = true → inWindow B now e = true → hasIntegerSize e = true) →
      List.Perm (l1.filter (fun e => isPushEvent e && inWindow B now e))
        (l2.filter (fun e => isPushEvent e && inWindow B now e)) →
      commitContent B now l1 = commitContent B now l2) ∧
    (∀ l1 l2 : List JSVal,
      (∀ e ∈ l1, isEventObject e = true) →
      (∀ e ∈ l1, isPushEvent e = true → inWindow B now e = true → hasIntegerSize e = true) →
      windowAbsTotal B now l1 ≤ 9007199254740991 →
      List.Perm l1 l2 →
      commitContent B now l1 = commitContent B now l2) ∧
    (∀ (before after : List JSVal) (x : JSVal),
      (∀ e ∈ before ++ after, isEventObject e = true) →
      isEventObject x = true →
      (isPushEvent x = false ∨
        ∃ t, eventTime B x = some t ∧ 7 * 24 * 60 * 60 * 1000 ≤ now - t) →
      commitContent B now (before ++ x :: after) = commitContent B now (before ++ after)) := by
  have general : ∀ l1 l2 : List JSVal,
      (∀ e ∈ l1, isEventObject e = true) →
      (∀ e ∈ l1, isPushEvent e = true → inWindow B now e = true → hasIntegerSize e = true) →
      windowAbsTotal B now l1 ≤ 9007199254740991 →
      (∀ e ∈ l2, isEventObject e = true) →
      (∀ e ∈ l2, isPushEvent e = true → inWindow B now e = true → hasIntegerSize e = true) →
      List.Perm (l1.filter (fun e => isPushEvent e && inWindow B now e))
        (l2.filter (fun e => isPushEvent e && inWindow B now e)) →
      commitContent B now l1 = commitContent B now l2 := by
    intro l1 l2 hwf1 hs1 hb1 hwf2 hs2 hp
    have hb2 : windowAbsTotal B now l2 ≤ 9007199254740991 := by
      rw [← windowAbsTotal_perm B now l1 l2 hp]
      exact hb1
    rw [commitContent_of_total B now l1 hwf1 hs1 hb1,
      commitContent_of_total B now l2 hwf2 hs2 hb2, windowPushTotal_perm B now l1 l2 hp]
  refine ⟨general, fun l1 l2 hwf1 hs1 hb1 hp => ?_, fun before after x hwf hx hcase => ?_⟩
  · exact general l1 l2 hwf1 hs1 hb1 (fun e he => hwf1 e (hp.mem_iff.mpr he))
      (fun e he => hs1 e (hp.mem_iff.mpr he)) (hp.filter _)
  · have hout : (isPushEvent x && inWindow B now x) = false := by
      rcases hcase with h | ⟨t, ht, hold⟩
      · rw [h]; rfl
      · rw [inWindow_of_old B now x t ht hold]; simp
    have hwf2 : ∀ e ∈ before ++ x :: after, isEventObject e = true := by
      intro e he
      rcases List.mem_append.mp he with h | h
      · exact hwf e (List.mem_append_left _ h)
      · rcases List.mem_cons.mp h with h | h
        · rw [h]; exact hx
        · exact hwf e (List.mem_append_right _ h)
    have hc : commits B now (before ++ x :: after) = commits B now (before ++ after) := by
      rw [commits_eq B now _ hwf2, commits_eq B now _ hwf]
      simp only [List.filter_append, List.filter_cons, hout]
      rfl
    unfold commitContent commitNum
    rw [hc]

/-- Witness of C17 as amended: swapping two pushes, and inserting a star event,
leave the line unchanged, and a push that comes after 20 star events is
counted. -/
theorem aggregate_line_invariance_witness :
    commitContent sampleBuiltins sampleNow
        [samplePush (js "2024-01-07T12:00:00Z") 3,
         samplePush (js "2024-01-01T00:00:00.001Z") 5]
      = commitContent sampleBuiltins sampleNow
        [samplePush (js "2024-01-01T00:00:00.001Z") 5,
         samplePush (js "2024-01-07T12:00:00Z") 3] ∧
    commitContent sampleBuiltins sampleNow
        ([samplePush (js "2024-01-07T12:00:00Z") 3] ++ sampleWatch (js "octo/repo") :: [])
      = commitContent sampleBuiltins sampleNow
        ([samplePush (js "2024-01-07T12:00:00Z") 3] ++ []) ∧
    commitContent sampleBuiltins sampleNow
        (List.replicate 20 (sampleWatch (js "octo/repo"))
          ++ [samplePush (js "2024-01-07T12:00:00Z") 4])
      = .ok (js "💻 Pushed 4 commits in the last week") :=
  ⟨(aggregate_line_invariance sampleBuiltins sampleNow).2.1 _ _ (by decide) (by decide)
      (by decide) (List.Perm.swap _ _ []),
   (aggregate_line_invariance sampleBuiltins sampleNow).2.2 _ _ _ (by decide)
      (by decide) (Or.inl (by decide)),
   by decide⟩

/-! ## Absent sizes and absent payloads in the aggregator -/

theorem add_num_numeric (B : Builtins) (k n : Int) :
    ∃ v, add B (.num k) (.num n) = .ok v ∧ (v = .nan ∨ ∃ r, v = .num r) := by
  simp only [add, toPrimitive, bind_ok, toNumber, pure, Except.pure, addNumbers]
  by_cases h : (isSafeInteger k && isSafeInteger n && isSafeInteger (k + n)) = true
  · rw [if_pos h]; exact ⟨_, rfl, Or.inr ⟨_, rfl⟩⟩
  · rw [if_neg h]
    cases B.addDoubles k n with
    | none => exact ⟨_, rfl, Or.inl rfl⟩
    | some r => exact ⟨_, rfl, Or.inr ⟨_, rfl⟩⟩

theorem commitCounter_absent (B : Builtins) (acc c : JSVal)
    (hacc : acc = .nan ∨ ∃ k, acc = .num k)
    (hc : isEventObject c = true) (hs : hasAbsentSize c = true) :
    commitCounter B acc c = .ok .nan := by
  unfold commitCounter
  rw [get_of_isEventObject c hc]
  simp only [bind_ok]
  unfold hasAbsentSize at hs
  cases hp : field c (js "payload") with
  | obj fields =>
    rw [hp] at hs
    have hg : (JSVal.obj fields).get (js "size") = .ok (field (JSVal.obj fields) (js "size")) :=
      rfl
    rw [hg]
    cases hz : field (JSVal.obj fields) (js "size") with
    | undefined =>
      rcases hacc with h | ⟨k, h⟩ <;> subst h <;> rfl
    | _ => simp [hz] at hs
  | _ => rw [hp] at hs; simp at hs

theorem commitCounter_integer (B : Builtins) (acc c : JSVal)
    (hacc : acc = .nan ∨ ∃ k, acc = .num k)
    (hc : isEventObject c = true) (hs : hasIntegerSize c = true) :
    ∃ v, commitCounter B acc c = .ok v ∧ (v = .nan ∨ ∃ r, v = .num r) ∧
      (acc = .nan → v = .nan) := by
  unfold commitCounter
  rw [get_of_isEventObject c hc]
  simp only [bind_ok]
  unfold hasIntegerSize at hs
  cases hp : field c (js "payload") with
  | obj fields =>
    rw [hp] at hs
    have hg : (JSVal.obj fields).get (js "size") = .ok (field (JSVal.obj fields) (js "size")) :=
      rfl
    rw [hg]
    cases hz : field (JSVal.obj fields) (js "size") with
    | num n =>
      simp only [bind_ok]
      rcases hacc with h | ⟨k, h⟩
      · subst h
        exact ⟨.nan, rfl, Or.inl rfl, fun _ => rfl⟩
      · subst h
        obtain ⟨v, hv, hnum⟩ := add_num_numeric B k n
        exact ⟨v, hv, hnum, fun h => by cases h⟩
    | _ => rw [hz] at hs; simp at hs
  | _ => rw [hp] at hs; simp [field] at hs

theorem arrayReduce_numeric (B : Builtins) (cs : List JSVal) (acc : JSVal)
    (hacc : acc = .nan ∨ ∃ k, acc = .num k)
    (hc : ∀ c ∈ cs, isEventObject c = true)
    (hs : ∀ c ∈ cs, hasIntegerSize c = true ∨ hasAbsentSize c = true) :
    ∃ v, arrayReduce (commitCounter B) acc cs = .ok v ∧ (v = .nan ∨ ∃ r, v = .num r) ∧
      ((acc = .nan ∨ ∃ c ∈ cs, hasAbsentSize c = true) → v = .nan) := by
  induction cs generalizing acc with
  | nil =>
    refine ⟨acc, rfl, hacc, fun h => ?_⟩
    rcases h with h | ⟨c, hmem, _⟩
    · exact h
    · cases hmem
  | cons c cs ih =>
    have hc2 : ∀ d ∈ cs, isEventObject d = true := fun d hd => hc d (List.mem_cons_of_mem c hd)
    have hs2 : ∀ d ∈ cs, hasIntegerSize d = true ∨ hasAbsentSize d = true :=
      fun d hd => hs d (List.mem_cons_of_mem c hd)
    have hstep : ∃ v, commitCounter B acc c = .ok v ∧ (v = .nan ∨ ∃ r, v = .num r) ∧
        ((acc = .nan ∨ hasAbsentSize c = true) → v = .nan) := by
      by_cases ha : hasAbsentSize c = true
      · exact ⟨.nan, commitCounter_absent B acc c hacc (hc c (List.mem_cons_self c cs)) ha,
          Or.inl rfl, fun _ => rfl⟩
      · have hi : hasIntegerSize c = true := by
          rcases hs c (List.mem_cons_self c cs) with h | h
          · exact h
          · exact absurd h ha
        obtain ⟨v, hv, hnum, hnan⟩ :=
          commitCounter_integer B acc c hacc (hc c (List.mem_cons_self c cs)) hi
        refine ⟨v, hv, hnum, fun h => ?_⟩
        rcases h with h | h
        · exact hnan h
        · exact absurd h ha
    obtain ⟨v, hv, hnum, hnan⟩ := hstep
    obtain ⟨w, hw, hwnum, hwnan⟩ := ih v hnum hc2 hs2
    rw [arrayReduce, hv]
    refine ⟨w, hw, hwnum, fun h => ?_⟩
    rcases h with h | ⟨d, hd, hda⟩
    · exact hwnan (Or.inl (hnan (Or.inl h)))
    · rcases List.mem_cons.mp hd with e | e
      · subst e
        exact hwnan (Or.inl (hnan (Or.inr hda)))
      · exact hwnan (Or.inr ⟨d, e, hda⟩)

theorem commitLine_numeric (B : Builtins) (v : JSVal) (h : v = .nan ∨ ∃ r, v = .num r) :
    ∃ line, commitLine B v = .ok line := by
  rcases h with h | ⟨r, h⟩
  · subst h; exact ⟨_, rfl⟩
  · subst h; exact ⟨_, commitLine_num B r⟩

theorem arrayReduce_error_of_mem {α β : Type} (f : β → α → Except JSError β) (c : α)
    (hf : ∀ acc, f acc c = .error .typeError) (cs : List α) (acc : β) (hmem : c ∈ cs) :
    arrayReduce f acc cs = .error .typeError := by
  induction cs generalizing acc with
  | nil => cases hmem
  | cons x xs ih =>
    rw [arrayReduce]
    cases hx : f acc x with
    | error e => cases e; rfl
    | ok acc2 =>
      rcases List.mem_cons.mp hmem with h | h
      · subst h; rw [hf acc] at hx; cases hx
      · exact ih acc2 h

theorem commitCounter_no_payload (B : Builtins) (acc c : JSVal)
    (hc : isEventObject c = true) (hp : field c (js "payload") = .undefined) :
    commitCounter B acc c = .error .typeError := by
  unfold commitCounter
  rw [get_of_isEventObject c hc, hp]
  rfl

/-- C13, counterexample: next to an in-window push of size 3, an in-window push
whose payload has no `size` turns the sum into `NaN`, so the line is the
no-commits line and the 3 commits are not counted (without the second event the
line is `💻 Pushed 3 commits in the last week`); and an in-window push event
without payload makes the aggregator throw a TypeError. -/
theorem absent_size_not_zero :
    commitContent sampleBuiltins sampleNow
        [samplePush (js "2024-01-07T12:00:00Z") 3, samplePushNoSize]
      = .ok (js "💻 No commits in the last week") ∧
    commitContent sampleBuiltins sampleNow [samplePush (js "2024-01-07T12:00:00Z") 3]
      = .ok (js "💻 Pushed 3 commits in the last week") ∧
    commitContent sampleBuiltins sampleNow [samplePushNoPayload] = .error .typeError :=
  ⟨by decide, by decide, by decide⟩

/-- C13 as amended. The aggregator returns the no-commits line for the empty
sequence, and returns a line for every sequence of event objects whose
in-window push events have a payload with an integer or an absent `size`: when
all these sizes are integers with magnitudes summing to at most `2^53 - 1` (so
that the double sum is exact) the count is their sum, and when one of them is
absent the count is `NaN` and the line is the no-commits line, whatever the
other sizes are. An in-window push event without payload makes it throw a
TypeError. -/
theorem commitAggregate_absent_size (B : Builtins) (now : Int) :
    commitContent B now [] = .ok (js "💻 No commits in the last week") ∧
    (∀ events : List JSVal,
      (∀ e ∈ events, isEventObject e = true) →
      (∀ e ∈ events, isPushEvent e = true → inWindow B now e = true →
        hasIntegerSize e = true ∨ hasAbsentSize e = true) →
      (∃ line, commitContent B now events = .ok line) ∧
      ((∀ e ∈ events, isPushEvent e = true → inWindow B now e = true →
          hasIntegerSize e = true) →
        windowAbsTotal B now events ≤ 9007199254740991 →
        commitNum B now events = .ok (.num (windowPushTotal B now events))) ∧
      ((∃ e ∈ events, isPushEvent e = true ∧ inWindow B now e = true ∧
          hasAbsentSize e = true) →
        commitNum B now events = .ok .nan ∧
        commitContent B now events = .ok (js "💻 No commits in the last week"))) ∧
    (∀ events : List JSVal,
      (∀ e ∈ events, isEventObject e = true) →
      (∃ e ∈ events, isPushEvent e = true ∧ inWindow B now e = true ∧
        field e (js "payload") = .undefined) →
      commitContent B now events = .error .typeError) := by
  refine ⟨rfl, fun events hwf hsz => ?_, fun events hwf hex => ?_⟩
  · have hred := arrayReduce_numeric B
      (events.filter (fun e => isPushEvent e && inWindow B now e)) (.num 0) (Or.inr ⟨0, rfl⟩)
      (fun c hc => hwf c (List.mem_of_mem_filter hc))
      (fun c hc => by
        have h2 := List.of_mem_filter hc
        simp only [Bool.and_eq_true] at h2
        exact hsz c (List.mem_of_mem_filter hc) h2.1 h2.2)
    obtain ⟨v, hv, hnum, hnan⟩ := hred
    have hcn : commitNum B now events = .ok v := by
      unfold commitNum
      rw [commits_eq B now events hwf]
      exact hv
    have hcc : commitContent B now events = commitLine B v := by
      unfold commitContent
      rw [hcn]
      rfl
    refine ⟨?_, fun h hb => commitNum_eq B now events hwf h hb, ?_⟩
    · rw [hcc]
      exact commitLine_numeric B v hnum
    · rintro ⟨e, he, hp, hw, ha⟩
      have hvn : v = .nan :=
        hnan (Or.inr ⟨e, List.mem_filter.mpr ⟨he, by rw [hp, hw]; rfl⟩, ha⟩)
      subst hvn
      exact ⟨hcn, by rw [hcc]; rfl⟩
  · obtain ⟨e, he, hp, hw, hpay⟩ := hex
    unfold commitContent commitNum
    rw [commits_eq B now events hwf]
    simp only [bind_ok]
    rw [arrayReduce_error_of_mem (commitCounter B) e
      (fun acc => commitCounter_no_payload B acc e (hwf e he) hpay) _ _
      (List.mem_filter.mpr ⟨he, by rw [hp, hw]; rfl⟩)]
    rfl

/-- Witness of C13 as amended at a push of size 3 followed by a push without
size. -/
theorem commitAggregate_absent_size_witness :
    commitNum sampleBuiltins sampleNow
        [samplePush (js "2024-01-07T12:00:00Z") 3, samplePushNoSize] = .ok .nan ∧
    commitContent sampleBuiltins sampleNow
        [samplePush (js "2024-01-07T12:00:00Z") 3, samplePushNoSize]
      = .ok (js "💻 No commits in the last week") ∧
    commitNum sampleBuiltins sampleNow [samplePush (js "2024-01-07T12:00:00Z") 3]
      = .ok (.num (windowPushTotal sampleBuiltins sampleNow
          [samplePush (js "2024-01-07T12:00:00Z") 3])) ∧
    commitContent sampleBuiltins sampleNow [samplePushNoPayload] = .error .typeError :=
  ⟨(((commitAggregate_absent_size sampleBuiltins sampleNow).2.1
        [samplePush (js "2024-01-07T12:00:00Z") 3, samplePushNoSize]
        (by decide) (by decide)).2.2
      ⟨samplePushNoSize, List.mem_cons_of_mem _ (List.mem_cons_self _ _),
        by decide, by decide, by decide⟩).1,
   (((commitAggregate_absent_size sampleBuiltins sampleNow).2.1
        [samplePush (js "2024-01-07T12:00:00Z") 3, samplePushNoSize]
        (by decide) (by decide)).2.2
      ⟨samplePushNoSize, List.mem_cons_of_mem _ (List.mem_cons_self _ _),
        by decide, by decide, by decide⟩).2,
   ((commitAggregate_absent_size sampleBuiltins sampleNow).2.1
        [samplePush (js "2024-01-07T12:00:00Z") 3] (by decide) (by decide)).2.1
      (by decide) (by decide),
   (commitAggregate_absent_size sampleBuiltins sampleNow).2.2 [samplePushNoPayload]
      (by decide)
      ⟨samplePushNoPayload, List.mem_cons_self _ _, by decide, by decide, rfl⟩⟩

/-! ## Malformed events of a registry kind -/

theorem arrayMap_error_of_mem {α β : Type} (f : α → Except JSError β) (c : α)
    (hf : f c = .error .typeError) (xs : List α) (hmem : c ∈ xs) :
    arrayMap f xs = .error .typeError := by
  induction xs with
  | nil => cases hmem
  | cons x xs ih =>
    rw [arrayMap]
    cases hx : f x with
    | error e => cases e; rfl
    | ok y =>
      rcases List.mem_cons.mp hmem with h | h
      · subst h; rw [hf] at hx; cases hx
      · rw [ih h]

theorem serialize_of_type (B : Builtins) (item : JSVal) (key : JSString)
    (f : JSVal → Except JSError JSString)
    (ht : item.get (js "type") = .ok (.str key)) (hk : serializerOf B key = some f) :
    serialize B item = f item := by
  unfold serialize
  rw [ht]
  simp only [bind_ok, JSVal.toJSString, hk]

theorem content_error_of_serialize (B : Builtins) (W now : Int) (events : List JSVal)
    (e : JSVal) (hmem : e ∈ (events.filter (inRegistry B)).take 19)
    (herr : serialize B e = .error .typeError) :
    content B W now events = .error .typeError := by
  have hextra : extraContent B W events = .error .typeError := by
    rw [extraContent_eq]
    cases hf : arrayFilter (hasSerializer B) events with
    | error err => cases err; rfl
    | ok interesting =>
      have e2 := arrayFilter_ok _ _ _ hf
      have e3 : events.filter (inRegistry B) = interesting := e2.symm
      rw [e3] at hmem
      exact arrayMap_error_of_mem _ e (by rw [herr]; rfl) _ hmem
  unfold content contentLines
  rw [hextra]
  cases commitContent B now events with
  | error err => cases err; rfl
  | ok first => rfl

/-- C12, counterexample: with an issue-comment event whose payload has no
`issue` after a star event, assembling the content throws a TypeError, whereas
the sequence without the offending event gives a digest of two lines. -/
theorem malformed_event_aborts :
    content sampleBuiltins 55 sampleNow [sampleWatch (js "octo/repo"), sampleIssueCommentNoIssue]
      = .error .typeError ∧
    content sampleBuiltins 55 sampleNow [sampleWatch (js "octo/repo")]
      = .ok (js "💻 No commits in the last week\n🌟 Starred repo: octo/repo") :=
  ⟨by decide, by decide⟩

/-- C12 as amended. Malformed event data is fatal: the serializer of an
`IssueCommentEvent` or `IssuesEvent` whose payload has no `issue`, of a
`PullRequestEvent` whose payload has no `pull_request`, and of an unmerged
`PullRequestEvent` whose payload has no `action`, throws a TypeError; and
whenever the serializer of one of the first 19 registry-kind events throws, the
assembly of the content throws as well (no digest is produced and the offending
event is not skipped). -/
theorem malformed_event_is_fatal (B : Builtins) :
    (∀ item payload : JSVal,
      item.get (js "type") = .ok (.str (js "IssueCommentEvent")) →
      item.get (js "payload") = .ok payload →
      payload.get (js "issue") = .ok .undefined →
      serialize B item = .error .typeError) ∧
    (∀ item payload : JSVal,
      item.get (js "type") = .ok (.str (js "IssuesEvent")) →
      item.get (js "payload") = .ok payload →
      payload.get (js "issue") = .ok .undefined →
      serialize B item = .error .typeError) ∧
    (∀ item payload : JSVal,
      item.get (js "type") = .ok (.str (js "PullRequestEvent")) →
      item.get (js "payload") = .ok payload →
      payload.get (js "pull_request") = .ok .undefined →
      serialize B item = .error .typeError) ∧
    (∀ item payload pr merged : JSVal,
      item.get (js "type") = .ok (.str (js "PullRequestEvent")) →
      item.get (js "payload") = .ok payload →
      payload.get (js "action") = .ok .undefined →
      payload.get (js "pull_request") = .ok pr →
      pr.get (js "merged") = .ok merged →
      toBoolean merged = false →
      serialize B item = .error .typeError) ∧
    (∀ (W now : Int) (events : List JSVal) (e : JSVal),
      e ∈ (events.filter (inRegistry B)).take 19 →
      serialize B e = .error .typeError →
      content B W now events = .error .typeError) := by
  refine ⟨fun item payload ht hp hi => ?_, fun item payload ht hp hi => ?_,
    fun item payload ht hp hpr => ?_, fun item payload pr merged ht hp ha hpr hm hb => ?_,
    fun W now events e hmem herr => content_error_of_serialize B W now events e hmem herr⟩
  · rw [serialize_of_type B item _ (serializers.IssueCommentEvent B) ht rfl]
    simp only [serializers.IssueCommentEvent, hp, hi, bind_ok]
    rfl
  · rw [serialize_of_type B item _ (serializers.IssuesEvent B) ht rfl]
    simp only [serializers.IssuesEvent, hp, hi, bind_ok]
    cases payload.get (js "action") with
    | error e => cases e; rfl
    | ok a =>
      simp only [bind_ok]
      cases capitalize B a with
      | error e => cases e; rfl
      | ok c => rfl
  · rw [serialize_of_type B item _ (serializers.PullRequestEvent B) ht rfl]
    simp only [serializers.PullRequestEvent, hp, hpr, bind_ok]
    cases payload.get (js "action") with
    | error e => cases e; rfl
    | ok a => rfl
  · rw [serialize_of_type B item _ (serializers.PullRequestEvent B) ht rfl]
    simp only [serializers.PullRequestEvent, hp, hpr, ha, hm, hb, bind_ok]
    rfl

/-- Witness of C12 as amended at the issue-comment event without `issue`. -/
theorem malformed_event_is_fatal_witness :
    serialize sampleBuiltins sampleIssueCommentNoIssue = .error .typeError ∧
    content sampleBuiltins 55 sampleNow
        [sampleWatch (js "octo/repo"), sampleIssueCommentNoIssue] = .error .typeError :=
  ⟨(malformed_event_is_fatal sampleBuiltins).1 sampleIssueCommentNoIssue _ rfl rfl rfl,
   (malformed_event_is_fatal sampleBuiltins).2.2.2.2 55 sampleNow
      [sampleWatch (js "octo/repo"), sampleIssueCommentNoIssue] sampleIssueCommentNoIssue
      (by
        have e : ([sampleWatch (js "octo/repo"), sampleIssueCommentNoIssue].filter
            (inRegistry sampleBuiltins)).take 19
            = [sampleWatch (js "octo/repo"), sampleIssueCommentNoIssue] := rfl
        rw [e]
        exact List.mem_cons_of_mem _ (List.mem_cons_self _ _))
      (by decide)⟩

/-! ## The end-to-end scenario -/

/-- C14, counterexample: for a star on `octo/repo`, a merged pull request #42
and a push of size 4 twelve hours old, the content starts with the marker glyph
of the aggregate line, so it is not the string of the claim. -/
theorem end_to_end_has_glyph :
    content sampleBuiltins 55 sampleNow
        [sampleWatch (js "octo/repo"), samplePullRequest (js "closed") true 42,
         samplePush (js "2024-01-07T12:00:00Z") 4]
      = .ok (js "💻 Pushed 4 commits in the last week\n🌟 Starred repo: octo/repo\n🎉 Merged PR #42 in octo/repo") ∧
    content sampleBuiltins 55 sampleNow
        [sampleWatch (js "octo/repo"), samplePullRequest (js "closed") true 42,
         samplePush (js "2024-01-07T12:00:00Z") 4]
      ≠ .ok (js "Pushed 4 commits in the last week\n🌟 Starred repo: octo/repo\n🎉 Merged PR #42 in octo/repo") :=
  ⟨by decide, by decide⟩

/-- C14 as amended. When the source returns, in this order, a star event for
`octo/repo`, a merged pull-request event (#42, `octo/repo`) and a push event of
size 4 whose timestamp is less than a week before `now`, and the width is at
least 29 (so that no line is cut), the content is
`💻 Pushed 4 commits in the last week`, `🌟 Starred repo: octo/repo` and
`🎉 Merged PR #42 in octo/repo`, joined by newlines. -/
theorem end_to_end (B : Builtins) (W now : Int) (created : JSString) (t : Int)
    (hparse : B.dateParse created = some t)
    (hrecent : now - t < 7 * 24 * 60 * 60 * 1000)
    (hW : 29 ≤ W) :
    content B W now
        [sampleWatch (js "octo/repo"), samplePullRequest (js "closed") true 42,
         samplePush created 4]
      = .ok (js "💻 Pushed 4 commits in the last week\n🌟 Starred repo: octo/repo\n🎉 Merged PR #42 in octo/repo") := by
  have hwf : ∀ e ∈ [sampleWatch (js "octo/repo"), samplePullRequest (js "closed") true 42,
      samplePush created 4], isEventObject e = true := by
    intro e he
    simp only [List.mem_cons, List.mem_singleton, List.not_mem_nil, or_false] at he
    rcases he with h | h | h <;> subst h <;> rfl
  have hsz : ∀ e ∈ [sampleWatch (js "octo/repo"), samplePullRequest (js "closed") true 42,
      samplePush created 4], isPushEvent e = true → inWindow B now e = true →
      hasIntegerSize e = true := by
    intro e he hp _
    simp only [List.mem_cons, List.mem_singleton, List.not_mem_nil, or_false] at he
    rcases he with h | h | h <;> subst h
    · exact absurd hp (by decide)
    · exact absurd hp (by decide)
    · rfl
  have hin : inWindow B now (samplePush created 4) = true := by
    have e1 : eventTime B (samplePush created 4) = B.dateParse created := rfl
    simp only [inWindow, e1, hparse, decide_eq_true_eq]
    omega
  have h1 : isPushEvent (sampleWatch (js "octo/repo")) = false := by decide
  have h2 : isPushEvent (samplePullRequest (js "closed") true 42) = false := by decide
  have h3 : isPushEvent (samplePush created 4) = true := rfl
  have htotal : windowPushTotal B now [sampleWatch (js "octo/repo"),
      samplePullRequest (js "closed") true 42, samplePush created 4] = 4 := by
    have e4 : pushSize (samplePush created 4) = 4 := rfl
    simp [windowPushTotal, List.filter, h1, h2, h3, hin, e4]
  have hfirst : commitContent B now [sampleWatch (js "octo/repo"),
      samplePullRequest (js "closed") true 42, samplePush created 4]
      = .ok (js "💻 Pushed 4 commits in the last week") := by
    have habs : windowAbsTotal B now [sampleWatch (js "octo/repo"),
        samplePullRequest (js "closed") true 42, samplePush created 4] ≤ 9007199254740991 := by
      have e4 : pushSize (samplePush created 4) = 4 := rfl
      simp [windowAbsTotal, List.filter, h1, h2, h3, hin, e4]
    rw [commitContent_of_total B now _ hwf hsz habs, htotal, commitLine_num,
      numberToJSString_of_safe B 4 (by decide)]
    decide
  have hextra : extraContent B W [sampleWatch (js "octo/repo"),
      samplePullRequest (js "closed") true 42, samplePush created 4]
      = .ok [truncate W (js "🌟 Starred repo: octo/repo"),
             truncate W (js "🎉 Merged PR #42 in octo/repo")] := rfl
  rw [truncate_of_le W _ (le_trans (by decide) hW),
    truncate_of_le W _ (le_trans (by decide) hW)] at hextra
  unfold content contentLines
  rw [hfirst, hextra]
  decide

/-- Witness of C14 as amended with the sample runtime, a push twelve hours old
and width 55. -/
theorem end_to_end_witness :
    sampleBuiltins.dateParse (js "2024-01-07T12:00:00Z") = some 1704628800000 ∧
    sampleNow - 1704628800000 < 7 * 24 * 60 * 60 * 1000 ∧
    content sampleBuiltins 55 sampleNow
        [sampleWatch (js "octo/repo"), samplePullRequest (js "closed") true 42,
         samplePush (js "2024-01-07T12:00:00Z") 4]
      = .ok (js "💻 Pushed 4 commits in the last week\n🌟 Starred repo: octo/repo\n🎉 Merged PR #42 in octo/repo") :=
  ⟨by decide, by decide,
   end_to_end sampleBuiltins 55 sampleNow (js "2024-01-07T12:00:00Z") 1704628800000
     (by decide) (by decide) (by decide)⟩

/-! ## Failure of the network calls -/

theorem step_finished (B : Builtins) (W now : Int) (net : Network) (s : RunState)
    (st : ExitStatus) (h : s.phase = .finished st) : step B W now net s = s := by
  unfold step
  rw [h]

theorem stateAfter_stable (B : Builtins) (W now : Int) (net : Network) (remote : JSString)
    (k : Nat) (st : ExitStatus)
    (h : (stateAfter B W now net remote k).phase = .finished st) (n : Nat) :
    stateAfter B W now net remote (k + n) = stateAfter B W now net remote k := by
  induction n with
  | zero => rfl
  | succ n ih =>
    show step B W now net (stateAfter B W now net remote (k + n)) = _
    rw [ih]
    exact step_finished B W now net _ st h

theorem stateAfter_fetch_fails (B : Builtins) (W now : Int) (net : Network)
    (remote : JSString) (hf : net.fetched = none) (n : Nat) :
    stateAfter B W now net remote (n + 1)
      = { phase := .finished .thrown, remote := remote, updates := 0 } := by
  have h1 : stateAfter B W now net remote 1
      = { phase := .finished .thrown, remote := remote, updates := 0 } := by
    simp [stateAfter, step, initialState, hf]
  have h2 := stateAfter_stable B W now net remote 1 .thrown (by rw [h1]) n
  rw [Nat.add_comm, h2, h1]

theorem run_termination (B : Builtins) (W now : Int) (net : Network) (remote : JSString) :
    ∃ st, (run B W now net remote).phase = .finished st := by
  unfold run
  cases hf : net.fetched with
  | none => exact ⟨.thrown, by rw [stateAfter_fetch_fails B W now net remote hf 2]⟩
  | some events =>
    cases hc : content B W now events with
    | error e => exact ⟨.thrown, by simp [stateAfter, step, initialState, hf, hc]⟩
    | ok c =>
      cases hp : net.publishes with
      | true => exact ⟨.success, by simp [stateAfter, step, initialState, hf, hc, boxUpdate, hp]⟩
      | false => exact ⟨.failure, by simp [stateAfter, step, initialState, hf, hc, boxUpdate, hp]⟩

/-- C15. The run as a step sequence over the remote digest and the exit status:
if the fetch of the events fails, `box.update` is performed in no state of the
run and the remote digest is unchanged throughout; if the publish call fails,
the run ends with the failure status, after one call of `box.update`, and the
remote digest keeps its previous value throughout; if it succeeds the run ends
with success and the remote digest is the content. -/
theorem run_failure_modes (B : Builtins) (W now : Int) (net : Network) (remote : JSString) :
    (net.fetched = none →
      (∀ n, (stateAfter B W now net remote n).updates = 0 ∧
        (stateAfter B W now net remote n).remote = remote) ∧
      (run B W now net remote).phase = .finished .thrown) ∧
    (∀ events c, net.fetched = some events → content B W now events = .ok c →
      net.publishes = false →
      (run B W now net remote).phase = .finished .failure ∧
      (run B W now net remote).updates = 1 ∧
      (∀ n, (stateAfter B W now net remote n).remote = remote)) ∧
    (∀ events c, net.fetched = some events → content B W now events = .ok c →
      net.publishes = true →
      (run B W now net remote).phase = .finished .success ∧
      (run B W now net remote).remote = c) := by
  refine ⟨fun hf => ⟨fun n => ?_, ?_⟩, fun events c hf hc hp => ?_, fun events c hf hc hp => ?_⟩
  · cases n with
    | zero => exact ⟨rfl, rfl⟩
    | succ n => rw [stateAfter_fetch_fails B W now net remote hf n]; exact ⟨rfl, rfl⟩
  · unfold run
    rw [stateAfter_fetch_fails B W now net remote hf 2]
  · have h3 : stateAfter B W now net remote 3
        = { phase := .finished .failure, remote := remote, updates := 1 } := by
      simp [stateAfter, step, initialState, hf, hc, boxUpdate, hp]
    refine ⟨by unfold run; rw [h3], by unfold run; rw [h3], fun n => ?_⟩
    rcases Nat.lt_or_ge n 3 with hlt | hge
    · interval_cases n <;> simp [stateAfter, step, initialState, hf, hc]
    · obtain ⟨m, rfl⟩ := Nat.exists_eq_add_of_le hge
      rw [stateAfter_stable B W now net remote 3 .failure (by rw [h3]) m, h3]
  · have h3 : stateAfter B W now net remote 3
        = { phase := .finished .success, remote := c, updates := 1 } := by
      simp [stateAfter, step, initialState, hf, hc, boxUpdate, hp]
    exact ⟨by unfold run; rw [h3], by unfold run; rw [h3]⟩

/-- Witness of C15: a failed fetch, and a failed publish of the digest of one
star event, both starting from the remote digest `old`. -/
theorem run_failure_modes_witness :
    (run sampleBuiltins 55 sampleNow { fetched := none, publishes := true } (js "old")).updates
      = 0 ∧
    (run sampleBuiltins 55 sampleNow { fetched := none, publishes := true } (js "old")).remote
      = js "old" ∧
    (run sampleBuiltins 55 sampleNow
        { fetched := some [sampleWatch (js "octo/repo")], publishes := false }
        (js "old")).phase = .finished .failure ∧
    (run sampleBuiltins 55 sampleNow
        { fetched := some [sampleWatch (js "octo/repo")], publishes := false }
        (js "old")).remote = js "old" :=
  ⟨(((run_failure_modes sampleBuiltins 55 sampleNow
        { fetched := none, publishes := true } (js "old")).1 rfl).1 3).1,
   (((run_failure_modes sampleBuiltins 55 sampleNow
        { fetched := none, publishes := true } (js "old")).1 rfl).1 3).2,
   ((run_failure_modes sampleBuiltins 55 sampleNow
        { fetched := some [sampleWatch (js "octo/repo")], publishes := false }
        (js "old")).2.1 [sampleWatch (js "octo/repo")]
        (js "💻 No commits in the last week\n🌟 Starred repo: octo/repo")
        rfl (by decide) rfl).1,
   ((run_failure_modes sampleBuiltins 55 sampleNow
        { fetched := some [sampleWatch (js "octo/repo")], publishes := false }
        (js "old")).2.1 [sampleWatch (js "octo/repo")]
        (js "💻 No commits in the last week\n🌟 Starred repo: octo/repo")
        rfl (by decide) rfl).2.2 3⟩

end ActivityBox
